import Mathlib

/-!
Shallow embedding of the `isy` lexer (src/token.rs and src/lexer.rs).

Input text is modelled as its list of characters.  The scanner state
keeps the cursor as the character index of the current character (the
state of the source's fused `CharIndices` iterator); the byte offset
that the source stores in `pos` is derived from it as `Lexer.byte_pos`
via the UTF-8 sizes of the preceding characters, and the byte length
`input.len()` is `utf8Len input`.  The source's `peek_char` mixes the
two units — it indexes `chars().nth(self.pos + 1)` with the BYTE
offset `self.pos` — and the model reproduces that skew exactly.  A
scan step that panics in the source (the integer-literal parse failure
unwrapped in `next_token`, or the inverted slice `input[pos+1..pos]`
in `read_string`) is modelled as `none`.
-/

/-- TokenType from src/token.rs.  `TypeName` is the source's `Type`
(`Type` is reserved in Lean); `Float` carries the literal text rather
than the parsed `f32`, since `f32` parsing succeeds on every text the
number scan can collect and no property here inspects float values. -/
inductive TokenType where
  | Illegal (ch : Char)
  | EOF
  | TypeName (s : String)
  | Ident (s : String)
  | Int (n : Int)
  | Float (text : String)
  | Bool (b : Bool)
  | String (s : String)
  | Assign
  | Colon
  | Equal
  | NotEqual
  | Bang
  | Minus
  | Plus
  | Asterisk
  | Slash
  | Module
  deriving DecidableEq, Repr

/-- Token from src/token.rs: wraps exactly one `TokenType`. -/
structure Token where
  typ : TokenType
  deriving DecidableEq, Repr

/-- Mirrors `Token::new`. -/
def Token.new (typ : TokenType) : Token := ⟨typ⟩

/-- The scanner state of src/lexer.rs.  `pos` here is the CHARACTER
index of the cursor — the state of the source's `CharIndices`
iterator.  The source stores alongside it `ch : Option<char>` (derived
here, see `Lexer.ch`: `next_char` keeps it equal to the character at
the cursor, or `None` past the end), the BYTE offset of the current
character (derived here, see `Lexer.byte_pos`, since the iterator
determines it), and a `read_position` field that is never read. -/
structure Lexer where
  input : List Char
  pos : Nat
  deriving DecidableEq, Repr

/-- The `ch` field of the source: the character at `pos`, absent once
the iterator is exhausted (`pos = input.len()`). -/
def Lexer.ch (l : Lexer) : Option Char := l.input.get? l.pos

@[simp] lemma Lexer.mk_input (inp : List Char) (p : Nat) : (Lexer.mk inp p).input = inp := rfl

@[simp] lemma Lexer.mk_pos (inp : List Char) (p : Nat) : (Lexer.mk inp p).pos = p := rfl

/-- Mirrors `Lexer::new`: builds the state and runs `next_char` once, leaving
`pos = 0` with `ch` the first character (or absent on empty input). -/
def Lexer.new (input : List Char) : Lexer := ⟨input, 0⟩

/-- Mirrors `Lexer::next_char`: pull the next `(pos, ch)` pair from the
`CharIndices` iterator; when it is exhausted, `ch = None` and
`pos = input.len()`. -/
def Lexer.next_char (l : Lexer) : Lexer :=
  if l.pos < l.input.length then { l with pos := l.pos + 1 }
  else { l with pos := l.input.length }

/-- UTF-8 byte length of a character list: Rust's `str::len` on the
modelled text. -/
def utf8Len : List Char → Nat
  | [] => 0
  | c :: cs => c.utf8Size + utf8Len cs

/-- The byte offset the source keeps in `self.pos`: the UTF-8 length
of the characters before the cursor.  It equals `input.len()` once the
iterator is exhausted (`pos ≥ input.length`, so `take` is the whole
list), exactly as `next_char` sets it. -/
def Lexer.byte_pos (l : Lexer) : Nat := utf8Len (l.input.take l.pos)

/-- Mirrors `Lexer::peek_char`: `self.pos >= self.input.len()` compares
the BYTE offset with the BYTE length, and `chars().nth(self.pos + 1)`
then uses the byte offset as a CHARACTER count.  After any multi-byte
character the two units diverge, so the peeked character need not be
the one after the cursor (and may be `none` while characters remain). -/
def Lexer.peek_char (l : Lexer) : Option Char :=
  if utf8Len l.input ≤ l.byte_pos then none
  else l.input.get? (l.byte_pos + 1)

/-- Mirrors `is_letter` from src/lexer.rs: `Some('a'..='z') | Some('A'..='Z') | Some('_')`. -/
def is_letter (ch : Option Char) : Bool :=
  match ch with
  | some c => decide ((('a' ≤ c ∧ c ≤ 'z') ∨ ('A' ≤ c ∧ c ≤ 'Z')) ∨ c = '_')
  | _ => false

/-- Mirrors `is_digit` from src/lexer.rs: `Some('0'..='9')`. -/
def is_digit (ch : Option Char) : Bool :=
  match ch with
  | some c => decide ('0' ≤ c ∧ c ≤ '9')
  | _ => false

/-- Mirrors `lookup_ident` from src/lexer.rs. -/
def lookup_ident (ident : String) : TokenType :=
  if ident = "true" then TokenType.Bool true
  else if ident = "false" then TokenType.Bool false
  else if ident = "bool" ∨ ident = "int" ∨ ident = "float" ∨ ident = "string" then
    TokenType.TypeName ident
  else TokenType.Ident ident

/-- Rust `&input[a..b]` on the modelled text.  At every use site `a`
and `b` are byte offsets at character boundaries, with character
indices `ia`, `ib`; since byte offsets of boundaries are strictly
monotone in the character index, `a > b` holds exactly when `ia > ib`,
so the slice is modelled by its character indices.  `none` models the
panic on an inverted range (which arises in `read_string` when the
string loop never advances past the opening quote); every in-source
use with `a ≤ b` also stays within bounds. -/
def strSlice (input : List Char) (a b : Nat) : Option (List Char) :=
  if a ≤ b then some ((input.drop a).take (b - a)) else none

lemma utf8Len_ge_length : ∀ cs : List Char, cs.length ≤ utf8Len cs := by
  intro cs
  induction cs with
  | nil => exact Nat.le_refl _
  | cons c cs ih =>
    have := Char.utf8Size_pos c
    simp only [List.length_cons, utf8Len]
    omega

lemma utf8Len_append : ∀ a b : List Char, utf8Len (a ++ b) = utf8Len a + utf8Len b := by
  intro a b
  induction a with
  | nil => simp [utf8Len]
  | cons c a ih =>
    rw [List.cons_append]
    show c.utf8Size + utf8Len (a ++ b) = c.utf8Size + utf8Len a + utf8Len b
    rw [ih]
    omega

lemma utf8Len_single : ∀ {cs : List Char}, (∀ c ∈ cs, c.utf8Size = 1) →
    utf8Len cs = cs.length := by
  intro cs
  induction cs with
  | nil => intro _; rfl
  | cons c cs ih =>
    intro h
    simp only [utf8Len, List.length_cons, h c (List.mem_cons_self c cs),
      ih (fun d hd => h d (List.mem_cons_of_mem c hd))]
    omega

lemma Lexer.byte_pos_ge {l : Lexer} (h : l.pos ≤ l.input.length) :
    l.pos ≤ l.byte_pos := by
  rw [Lexer.byte_pos]
  calc l.pos = (l.input.take l.pos).length := by rw [List.length_take]; omega
  _ ≤ _ := utf8Len_ge_length _

lemma Lexer.byte_pos_of_ge {l : Lexer} (h : l.input.length ≤ l.pos) :
    l.byte_pos = utf8Len l.input := by
  rw [Lexer.byte_pos, List.take_of_length_le h]

lemma Lexer.byte_pos_lt {l : Lexer} (h : l.pos < l.input.length) :
    l.byte_pos < utf8Len l.input := by
  have hsplit : l.input = l.input.take l.pos ++ l.input.drop l.pos :=
    (List.take_append_drop l.pos l.input).symm
  have hdrop : l.input.drop l.pos ≠ [] := by
    intro hnil
    have := List.length_drop l.pos l.input
    rw [hnil] at this
    simp at this
    omega
  have hone : 1 ≤ utf8Len (l.input.drop l.pos) := by
    rcases hd : l.input.drop l.pos with _ | ⟨c, cs⟩
    · exact absurd hd hdrop
    · have := Char.utf8Size_pos c
      simp only [utf8Len]
      omega
  rw [Lexer.byte_pos]
  conv_rhs => rw [hsplit]
  rw [utf8Len_append]
  omega

lemma Lexer.ch_some_lt {l : Lexer} {c : Char} (h : l.ch = some c) :
    l.pos < l.input.length := by
  by_contra hn
  push_neg at hn
  rw [Lexer.ch, List.get?_eq_none.mpr hn] at h
  exact Option.noConfusion h

lemma Lexer.ch_isSome_lt {l : Lexer} (h : l.ch.isSome = true) :
    l.pos < l.input.length := by
  obtain ⟨c, hc⟩ := Option.isSome_iff_exists.mp h
  exact l.ch_some_lt hc

lemma Lexer.peek_isSome_lt {l : Lexer} (h : l.peek_char.isSome = true) :
    l.pos + 1 < l.input.length := by
  rw [Lexer.peek_char] at h
  split at h
  · simp at h
  · next hcond =>
    push_neg at hcond
    have hpos : l.pos < l.input.length := by
      by_contra hn
      push_neg at hn
      rw [Lexer.byte_pos_of_ge hn] at hcond
      omega
    obtain ⟨c, hc⟩ := Option.isSome_iff_exists.mp h
    have h2 : l.byte_pos + 1 < l.input.length := by
      by_contra hn
      push_neg at hn
      rw [List.get?_eq_none.mpr hn] at hc
      exact Option.noConfusion hc
    have h3 := Lexer.byte_pos_ge (Nat.le_of_lt hpos)
    omega

/-- On single-byte (one UTF-8 byte per character) input the byte offset
equals the character index, so `peek_char` really is the character
after the cursor. -/
lemma Lexer.peek_char_single {l : Lexer} (hb : ∀ c ∈ l.input, c.utf8Size = 1) :
    l.peek_char = if l.input.length ≤ l.pos then none
      else l.input.get? (l.pos + 1) := by
  have hlen : utf8Len l.input = l.input.length := utf8Len_single hb
  by_cases hp : l.input.length ≤ l.pos
  · rw [Lexer.peek_char, if_pos (by rw [Lexer.byte_pos_of_ge hp]), if_pos hp]
  · push_neg at hp
    have htake : l.byte_pos = l.pos := by
      rw [Lexer.byte_pos, utf8Len_single (fun c hc => hb c (List.take_subset _ _ hc)),
        List.length_take]
      omega
    rw [Lexer.peek_char, if_neg (by rw [hlen, htake]; omega), htake,
      if_neg (by omega)]

lemma is_digit_some {o : Option Char} (h : is_digit o = true) : ∃ c, o = some c := by
  cases o with
  | none => simp [is_digit] at h
  | some c => exact ⟨c, rfl⟩

lemma is_letter_some {o : Option Char} (h : is_letter o = true) : ∃ c, o = some c := by
  cases o with
  | none => simp [is_letter] at h
  | some c => exact ⟨c, rfl⟩

@[simp] lemma Lexer.next_char_input (l : Lexer) : l.next_char.input = l.input := by
  rw [Lexer.next_char]; split <;> rfl

lemma Lexer.next_char_pos_of_lt {l : Lexer} (h : l.pos < l.input.length) :
    l.next_char.pos = l.pos + 1 := by
  rw [Lexer.next_char, if_pos h]

/-- Mirrors `Lexer::skip_whitespace`: skip consecutive `' '` characters. -/
def Lexer.skip_whitespace (l : Lexer) : Lexer :=
  if h : l.ch = some ' ' then l.next_char.skip_whitespace else l
termination_by l.input.length - l.pos
decreasing_by
  have hlt := l.ch_some_lt h
  rw [Lexer.next_char_input, Lexer.next_char_pos_of_lt hlt]
  omega

/-- The `while` loop of `Lexer::read_identifier`. -/
def Lexer.read_identifier_loop (l : Lexer) : Lexer :=
  if h : (is_letter l.ch || is_digit l.ch) = true then l.next_char.read_identifier_loop
  else l
termination_by l.input.length - l.pos
decreasing_by
  have hlt : l.pos < l.input.length := by
    rcases Bool.or_eq_true_iff.mp h with h1 | h1
    · obtain ⟨c, hc⟩ := is_letter_some h1
      exact l.ch_some_lt hc
    · obtain ⟨c, hc⟩ := is_digit_some h1
      exact l.ch_some_lt hc
  rw [Lexer.next_char_input, Lexer.next_char_pos_of_lt hlt]
  omega

/-- Mirrors `Lexer::read_identifier`: the slice `input[initial_pos..pos]` here
always has `initial_pos ≤ pos` (the loop only advances), so it cannot
panic; the source wraps the result in an always-`Ok` `Result`. -/
def Lexer.read_identifier (l : Lexer) : TokenType × Lexer :=
  let initial_pos := l.pos
  let l' := l.read_identifier_loop
  (lookup_ident (String.mk ((l'.input.drop initial_pos).take (l'.pos - initial_pos))), l')

/-- The `loop` of `Lexer::read_number`: consume digits; at most one `.`
switches to float mode, and only when the peeked character is a digit. -/
def Lexer.read_number_loop (l : Lexer) (is_float : Bool) : Lexer × Bool :=
  if h : is_digit l.ch = true then l.next_char.read_number_loop is_float
  else if h2 : is_float = false ∧ l.ch = some '.' ∧ is_digit l.peek_char = true then
    l.next_char.read_number_loop true
  else (l, is_float)
termination_by l.input.length - l.pos
decreasing_by
  · have hlt : l.pos < l.input.length := by
      obtain ⟨c, hc⟩ := is_digit_some h
      exact l.ch_some_lt hc
    rw [Lexer.next_char_input, Lexer.next_char_pos_of_lt hlt]
    omega
  · have hlt : l.pos < l.input.length := l.ch_some_lt h2.2.1
    rw [Lexer.next_char_input, Lexer.next_char_pos_of_lt hlt]
    omega

/-- Mirrors `i32::from_str` on the collected integer text (always a non-empty
run of ASCII digits, so no sign handling is needed): `none` models the
parse error, which arises exactly when the value exceeds `i32::MAX`. -/
def parse_i32 (s : List Char) : Option Int :=
  if s ≠ [] ∧ s.all Char.isDigit = true then
    let n := s.foldl (fun acc c => acc * 10 + (c.toNat - '0'.toNat)) 0
    if n ≤ 2147483647 then some (Int.ofNat n) else none
  else none

/-- Mirrors `Lexer::read_number`: collect the literal text and parse it; a
`none` result models the `Err` that `next_token` unwraps (a panic).
The float parse (`f32::from_str`) succeeds on every collectable float
text (digits, one dot, digits), so the text itself is kept. -/
def Lexer.read_number (l : Lexer) : Option (TokenType × Lexer) :=
  let initial_pos := l.pos
  let r := l.read_number_loop false
  match strSlice r.1.input initial_pos r.1.pos with
  | none => none
  | some num =>
    if r.2 = true then some (TokenType.Float (String.mk num), r.1)
    else (parse_i32 num).map fun n => (TokenType.Int n, r.1)

/-- The `while` loop of `Lexer::read_string`: advance while a next
character exists, tracking the escape flag; an unescaped backslash sets
the flag (and is kept in the text), an unescaped quote breaks. -/
def Lexer.read_string_loop (l : Lexer) (escape : Bool) : Lexer :=
  if h : l.peek_char.isSome = true then
    if l.next_char.ch = some '\\' then
      if escape = false then l.next_char.read_string_loop true
      else l.next_char.read_string_loop false
    else if l.next_char.ch = some '"' then
      if escape = false then l.next_char
      else l.next_char.read_string_loop false
    else l.next_char.read_string_loop false
  else l
termination_by l.input.length - l.pos
decreasing_by
  all_goals
    have hlt := l.peek_isSome_lt h
    rw [Lexer.next_char_input, Lexer.next_char_pos_of_lt (by omega)]
    omega

/-- Mirrors `Lexer::read_string`: run the loop from the opening quote and slice
`input[initial_pos..pos]`; `none` models the slice panic, which arises
exactly when the loop never ran (the quote is the final character). -/
def Lexer.read_string (l : Lexer) : Option (TokenType × Lexer) :=
  let initial_pos := l.pos + 1
  let l' := l.read_string_loop false
  (strSlice l'.input initial_pos l'.pos).map
    fun s => (TokenType.String (String.mk s), l')

/-- The `match self.ch` dispatch of `Lexer::next_token`, applied after
the initial `skip_whitespace` call.  The source computes a `TokenType`
by matching on `ch` and then advances one character unless `read_next`
was cleared (identifier and number branches); here that final
`next_char` is inlined into each branch.  `none` models the panics
unwrapped here (number parse failure, string slice inversion). -/
def Lexer.dispatch (l : Lexer) : Option (Token × Lexer) :=
  match l.ch with
  | none => some (Token.new TokenType.EOF, l.next_char)
  | some c =>
    if c = ':' then some (Token.new TokenType.Colon, l.next_char)
    else if c = '+' then some (Token.new TokenType.Plus, l.next_char)
    else if c = '-' then some (Token.new TokenType.Minus, l.next_char)
    else if c = '/' then some (Token.new TokenType.Slash, l.next_char)
    else if c = '*' then some (Token.new TokenType.Asterisk, l.next_char)
    else if c = '%' then some (Token.new TokenType.Module, l.next_char)
    else if c = '"' then
      l.read_string.map fun tl => (Token.new tl.1, tl.2.next_char)
    else if c = '=' then
      if l.peek_char = some '=' then some (Token.new TokenType.Equal, l.next_char)
      else some (Token.new TokenType.Assign, l.next_char)
    else if c = '!' then
      if l.peek_char = some '=' then some (Token.new TokenType.NotEqual, l.next_char)
      else some (Token.new TokenType.Bang, l.next_char)
    else if is_letter l.ch = true then
      some (Token.new l.read_identifier.1, l.read_identifier.2)
    else if is_digit l.ch = true then
      l.read_number.map fun tl => (Token.new tl.1, tl.2)
    else some (Token.new (TokenType.Illegal c), l.next_char)

/-- Mirrors `Lexer::next_token`: skip spaces, then dispatch on the current
character. -/
def Lexer.next_token (l0 : Lexer) : Option (Token × Lexer) :=
  l0.skip_whitespace.dispatch

lemma Lexer.next_char_pos_le {l : Lexer} (h : l.pos ≤ l.input.length) :
    l.pos ≤ l.next_char.pos := by
  rw [Lexer.next_char]
  split
  · exact Nat.le_succ _
  · exact h

lemma Lexer.next_char_pos_le_length (l : Lexer) :
    l.next_char.pos ≤ l.input.length := by
  rw [Lexer.next_char]
  split
  · exact (by omega : l.pos + 1 ≤ l.input.length)
  · exact Nat.le_refl _

@[simp] lemma Lexer.skip_whitespace_input (l : Lexer) :
    l.skip_whitespace.input = l.input := by
  induction l using Lexer.skip_whitespace.induct with
  | case1 l h ih =>
    rw [Lexer.skip_whitespace, dif_pos h]
    rw [ih, Lexer.next_char_input]
  | case2 l h =>
    rw [Lexer.skip_whitespace, dif_neg h]

lemma Lexer.skip_whitespace_pos_le (l : Lexer) : l.pos ≤ l.skip_whitespace.pos := by
  induction l using Lexer.skip_whitespace.induct with
  | case1 l h ih =>
    rw [Lexer.skip_whitespace, dif_pos h]
    have hlt := l.ch_some_lt h
    calc l.pos ≤ l.next_char.pos := l.next_char_pos_le (Nat.le_of_lt hlt)
    _ ≤ _ := ih
  | case2 l h =>
    rw [Lexer.skip_whitespace, dif_neg h]

lemma Lexer.skip_whitespace_pos_le_length {l : Lexer} (h : l.pos ≤ l.input.length) :
    l.skip_whitespace.pos ≤ l.skip_whitespace.input.length := by
  induction l using Lexer.skip_whitespace.induct with
  | case1 l h1 ih =>
    rw [Lexer.skip_whitespace, dif_pos h1]
    exact ih (by rw [Lexer.next_char_input]; exact l.next_char_pos_le_length)
  | case2 l h1 =>
    rw [Lexer.skip_whitespace, dif_neg h1]
    exact h

lemma Lexer.skip_whitespace_ch (l : Lexer) : l.skip_whitespace.ch ≠ some ' ' := by
  induction l using Lexer.skip_whitespace.induct with
  | case1 l h ih =>
    rw [Lexer.skip_whitespace, dif_pos h]
    exact ih
  | case2 l h =>
    rw [Lexer.skip_whitespace, dif_neg h]
    exact h

@[simp] lemma Lexer.read_identifier_loop_input (l : Lexer) :
    l.read_identifier_loop.input = l.input := by
  induction l using Lexer.read_identifier_loop.induct with
  | case1 l h ih =>
    rw [Lexer.read_identifier_loop, dif_pos h]
    rw [ih, Lexer.next_char_input]
  | case2 l h =>
    rw [Lexer.read_identifier_loop, dif_neg h]

lemma Lexer.read_identifier_loop_pos_le (l : Lexer) :
    l.pos ≤ l.read_identifier_loop.pos := by
  induction l using Lexer.read_identifier_loop.induct with
  | case1 l h ih =>
    rw [Lexer.read_identifier_loop, dif_pos h]
    have hlt : l.pos < l.input.length := by
      rcases Bool.or_eq_true_iff.mp h with h1 | h1
      · obtain ⟨c, hc⟩ := is_letter_some h1
        exact l.ch_some_lt hc
      · obtain ⟨c, hc⟩ := is_digit_some h1
        exact l.ch_some_lt hc
    calc l.pos ≤ l.next_char.pos := l.next_char_pos_le (Nat.le_of_lt hlt)
    _ ≤ _ := ih
  | case2 l h =>
    rw [Lexer.read_identifier_loop, dif_neg h]

lemma Lexer.read_identifier_loop_pos_le_length {l : Lexer} (h : l.pos ≤ l.input.length) :
    l.read_identifier_loop.pos ≤ l.input.length := by
  induction l using Lexer.read_identifier_loop.induct with
  | case1 l h1 ih =>
    rw [Lexer.read_identifier_loop, dif_pos h1]
    have := ih (by rw [Lexer.next_char_input]; exact l.next_char_pos_le_length)
    rwa [Lexer.next_char_input] at this
  | case2 l h1 =>
    rw [Lexer.read_identifier_loop, dif_neg h1]
    exact h

@[simp] lemma Lexer.read_number_loop_input (l : Lexer) (f : Bool) :
    (l.read_number_loop f).1.input = l.input := by
  induction l, f using Lexer.read_number_loop.induct with
  | case1 l f h ih =>
    rw [Lexer.read_number_loop, dif_pos h]
    rw [ih, Lexer.next_char_input]
  | case2 l f h h2 ih =>
    rw [Lexer.read_number_loop, dif_neg h, dif_pos h2]
    rw [ih, Lexer.next_char_input]
  | case3 l f h h2 =>
    rw [Lexer.read_number_loop, dif_neg h, dif_neg h2]

lemma Lexer.read_number_loop_pos_le (l : Lexer) (f : Bool) :
    l.pos ≤ (l.read_number_loop f).1.pos := by
  induction l, f using Lexer.read_number_loop.induct with
  | case1 l f h ih =>
    rw [Lexer.read_number_loop, dif_pos h]
    have hlt : l.pos < l.input.length := by
      obtain ⟨c, hc⟩ := is_digit_some h
      exact l.ch_some_lt hc
    calc l.pos ≤ l.next_char.pos := l.next_char_pos_le (Nat.le_of_lt hlt)
    _ ≤ _ := ih
  | case2 l f h h2 ih =>
    rw [Lexer.read_number_loop, dif_neg h, dif_pos h2]
    have hlt : l.pos < l.input.length := l.ch_some_lt h2.2.1
    calc l.pos ≤ l.next_char.pos := l.next_char_pos_le (Nat.le_of_lt hlt)
    _ ≤ _ := ih
  | case3 l f h h2 =>
    rw [Lexer.read_number_loop, dif_neg h, dif_neg h2]

lemma Lexer.read_number_loop_pos_le_length {l : Lexer} {f : Bool}
    (h : l.pos ≤ l.input.length) :
    (l.read_number_loop f).1.pos ≤ l.input.length := by
  induction l, f using Lexer.read_number_loop.induct with
  | case1 l f h1 ih =>
    rw [Lexer.read_number_loop, dif_pos h1]
    have := ih (by rw [Lexer.next_char_input]; exact l.next_char_pos_le_length)
    rwa [Lexer.next_char_input] at this
  | case2 l f h1 h2 ih =>
    rw [Lexer.read_number_loop, dif_neg h1, dif_pos h2]
    have := ih (by rw [Lexer.next_char_input]; exact l.next_char_pos_le_length)
    rwa [Lexer.next_char_input] at this
  | case3 l f h1 h2 =>
    rw [Lexer.read_number_loop, dif_neg h1, dif_neg h2]
    exact h

@[simp] lemma Lexer.read_string_loop_input (l : Lexer) (e : Bool) :
    (l.read_string_loop e).input = l.input := by
  induction l, e using Lexer.read_string_loop.induct with
  | case1 l h h1 ih =>
    rw [Lexer.read_string_loop, dif_pos h, if_pos h1, if_pos rfl]
    rw [ih, Lexer.next_char_input]
  | case2 l e h h1 h2 ih =>
    rw [Lexer.read_string_loop, dif_pos h, if_pos h1, if_neg h2]
    rw [ih, Lexer.next_char_input]
  | case3 l h h1 h2 =>
    rw [Lexer.read_string_loop, dif_pos h, if_neg h1, if_pos h2, if_pos rfl]
    rw [Lexer.next_char_input]
  | case4 l e h h1 h2 h3 ih =>
    rw [Lexer.read_string_loop, dif_pos h, if_neg h1, if_pos h2, if_neg h3]
    rw [ih, Lexer.next_char_input]
  | case5 l e h h1 h2 ih =>
    rw [Lexer.read_string_loop, dif_pos h, if_neg h1, if_neg h2]
    rw [ih, Lexer.next_char_input]
  | case6 l e h =>
    rw [Lexer.read_string_loop, dif_neg h]

lemma Lexer.read_string_loop_pos_le (l : Lexer) (e : Bool) :
    l.pos ≤ (l.read_string_loop e).pos := by
  induction l, e using Lexer.read_string_loop.induct with
  | case1 l h h1 ih =>
    rw [Lexer.read_string_loop, dif_pos h, if_pos h1, if_pos rfl]
    have := l.peek_isSome_lt h
    calc l.pos ≤ l.next_char.pos := l.next_char_pos_le (by omega)
    _ ≤ _ := ih
  | case2 l e h h1 h2 ih =>
    rw [Lexer.read_string_loop, dif_pos h, if_pos h1, if_neg h2]
    have := l.peek_isSome_lt h
    calc l.pos ≤ l.next_char.pos := l.next_char_pos_le (by omega)
    _ ≤ _ := ih
  | case3 l h h1 h2 =>
    rw [Lexer.read_string_loop, dif_pos h, if_neg h1, if_pos h2, if_pos rfl]
    have := l.peek_isSome_lt h
    exact l.next_char_pos_le (by omega)
  | case4 l e h h1 h2 h3 ih =>
    rw [Lexer.read_string_loop, dif_pos h, if_neg h1, if_pos h2, if_neg h3]
    have := l.peek_isSome_lt h
    calc l.pos ≤ l.next_char.pos := l.next_char_pos_le (by omega)
    _ ≤ _ := ih
  | case5 l e h h1 h2 ih =>
    rw [Lexer.read_string_loop, dif_pos h, if_neg h1, if_neg h2]
    have := l.peek_isSome_lt h
    calc l.pos ≤ l.next_char.pos := l.next_char_pos_le (by omega)
    _ ≤ _ := ih
  | case6 l e h =>
    rw [Lexer.read_string_loop, dif_neg h]

lemma Lexer.read_string_loop_pos_le_length {l : Lexer} {e : Bool}
    (h : l.pos ≤ l.input.length) :
    (l.read_string_loop e).pos ≤ l.input.length := by
  induction l, e using Lexer.read_string_loop.induct with
  | case1 l h1 h2 ih =>
    rw [Lexer.read_string_loop, dif_pos h1, if_pos h2, if_pos rfl]
    have := ih (by rw [Lexer.next_char_input]; exact l.next_char_pos_le_length)
    rwa [Lexer.next_char_input] at this
  | case2 l e h1 h2 h3 ih =>
    rw [Lexer.read_string_loop, dif_pos h1, if_pos h2, if_neg h3]
    have := ih (by rw [Lexer.next_char_input]; exact l.next_char_pos_le_length)
    rwa [Lexer.next_char_input] at this
  | case3 l h1 h2 h3 =>
    rw [Lexer.read_string_loop, dif_pos h1, if_neg h2, if_pos h3, if_pos rfl]
    exact l.next_char_pos_le_length
  | case4 l e h1 h2 h3 h4 ih =>
    rw [Lexer.read_string_loop, dif_pos h1, if_neg h2, if_pos h3, if_neg h4]
    have := ih (by rw [Lexer.next_char_input]; exact l.next_char_pos_le_length)
    rwa [Lexer.next_char_input] at this
  | case5 l e h1 h2 h3 ih =>
    rw [Lexer.read_string_loop, dif_pos h1, if_neg h2, if_neg h3]
    have := ih (by rw [Lexer.next_char_input]; exact l.next_char_pos_le_length)
    rwa [Lexer.next_char_input] at this
  | case6 l e h1 =>
    rw [Lexer.read_string_loop, dif_neg h1]
    exact h

@[simp] lemma Lexer.read_identifier_snd (l : Lexer) :
    l.read_identifier.2 = l.read_identifier_loop := rfl

@[simp] lemma Lexer.read_identifier_fst (l : Lexer) :
    l.read_identifier.1 =
      lookup_ident (String.mk ((l.read_identifier_loop.input.drop l.pos).take
        (l.read_identifier_loop.pos - l.pos))) := rfl

lemma Lexer.read_string_eq (l : Lexer) :
    l.read_string =
      (strSlice (l.read_string_loop false).input (l.pos + 1)
        (l.read_string_loop false).pos).map
        (fun s => (TokenType.String (String.mk s), l.read_string_loop false)) := rfl

lemma Lexer.read_number_eq (l : Lexer) :
    l.read_number =
      match strSlice (l.read_number_loop false).1.input l.pos
          (l.read_number_loop false).1.pos with
      | none => none
      | some num =>
        if (l.read_number_loop false).2 = true then
          some (TokenType.Float (String.mk num), (l.read_number_loop false).1)
        else (parse_i32 num).map fun n => (TokenType.Int n, (l.read_number_loop false).1) := rfl

lemma lookup_ident_shape (s : String) :
    (∃ b, lookup_ident s = TokenType.Bool b) ∨ lookup_ident s = TokenType.TypeName s ∨
      lookup_ident s = TokenType.Ident s := by
  rw [lookup_ident]
  split_ifs
  · exact Or.inl ⟨true, rfl⟩
  · exact Or.inl ⟨false, rfl⟩
  · exact Or.inr (Or.inl rfl)
  · exact Or.inr (Or.inr rfl)

lemma Lexer.read_identifier_loop_pos_lt {l : Lexer}
    (h : (is_letter l.ch || is_digit l.ch) = true) :
    l.pos < l.read_identifier_loop.pos := by
  rw [Lexer.read_identifier_loop, dif_pos h]
  have hlt : l.pos < l.input.length := by
    rcases Bool.or_eq_true_iff.mp h with h1 | h1
    · obtain ⟨c, hc⟩ := is_letter_some h1
      exact l.ch_some_lt hc
    · obtain ⟨c, hc⟩ := is_digit_some h1
      exact l.ch_some_lt hc
  have h2 := l.next_char.read_identifier_loop_pos_le
  rw [Lexer.next_char_pos_of_lt hlt] at h2
  omega

lemma Lexer.read_number_loop_pos_lt {l : Lexer} {f : Bool} (h : is_digit l.ch = true) :
    l.pos < (l.read_number_loop f).1.pos := by
  rw [Lexer.read_number_loop, dif_pos h]
  have hlt : l.pos < l.input.length := by
    obtain ⟨c, hc⟩ := is_digit_some h
    exact l.ch_some_lt hc
  have h2 := l.next_char.read_number_loop_pos_le f
  rw [Lexer.next_char_pos_of_lt hlt] at h2
  omega

lemma Lexer.read_string_loop_pos_succ_le {l : Lexer} {e : Bool}
    (h : l.peek_char.isSome = true) :
    l.pos + 1 ≤ (l.read_string_loop e).pos := by
  have hlt : l.pos < l.input.length := by
    have := l.peek_isSome_lt h
    omega
  have hnc : l.next_char.pos = l.pos + 1 := Lexer.next_char_pos_of_lt hlt
  rw [Lexer.read_string_loop, dif_pos h]
  split_ifs
  · have := l.next_char.read_string_loop_pos_le true
    omega
  · have := l.next_char.read_string_loop_pos_le false
    omega
  · omega
  · have := l.next_char.read_string_loop_pos_le false
    omega
  · have := l.next_char.read_string_loop_pos_le false
    omega

lemma Lexer.read_string_some {l : Lexer} {t : TokenType} {l' : Lexer}
    (h : l.read_string = some (t, l')) :
    (∃ s, t = TokenType.String s) ∧ l' = l.read_string_loop false := by
  rw [Lexer.read_string_eq] at h
  obtain ⟨s, hs, h2⟩ := Option.map_eq_some'.mp h
  simp only [Prod.mk.injEq] at h2
  exact ⟨⟨String.mk s, h2.1.symm⟩, h2.2.symm⟩

lemma Lexer.read_number_some {l : Lexer} {t : TokenType} {l' : Lexer}
    (h : l.read_number = some (t, l')) :
    ((∃ s, t = TokenType.Float s) ∨ (∃ n, t = TokenType.Int n)) ∧
      l' = (l.read_number_loop false).1 := by
  rw [Lexer.read_number_eq] at h
  rcases hs : strSlice (l.read_number_loop false).1.input l.pos
      (l.read_number_loop false).1.pos with _ | num
  · rw [hs] at h
    exact Option.noConfusion h
  · rw [hs] at h
    split_ifs at h
    · simp only [Option.some.injEq, Prod.mk.injEq] at h
      exact ⟨Or.inl ⟨String.mk num, h.1.symm⟩, h.2.symm⟩
    · obtain ⟨n, hn, h2⟩ := Option.map_eq_some'.mp h
      simp only [Prod.mk.injEq] at h2
      exact ⟨Or.inr ⟨n, h2.1.symm⟩, h2.2.symm⟩

lemma Lexer.dispatch_ne_eof_ch {l : Lexer} {t : Token} {l' : Lexer}
    (h : l.dispatch = some (t, l')) (hne : t.typ ≠ TokenType.EOF) :
    ∃ c, l.ch = some c := by
  rcases hc : l.ch with _ | c
  · rw [Lexer.dispatch] at h
    simp only [hc, Option.some.injEq, Prod.mk.injEq] at h
    exact absurd (by rw [← h.1] : t.typ = (Token.new TokenType.EOF).typ) hne
  · exact ⟨c, rfl⟩

lemma Lexer.step_next_char {l : Lexer} {t : Token} {l' : Lexer} {K : TokenType}
    (hlt : l.pos < l.input.length)
    (h : some (Token.new K, l.next_char) = some (t, l')) :
    l'.input = l.input ∧ l.pos ≤ l'.pos ∧ l'.pos ≤ l.input.length ∧
      (t.typ ≠ TokenType.EOF → l.pos < l'.pos ∧ l.pos < l.input.length) := by
  simp only [Option.some.injEq, Prod.mk.injEq] at h
  refine ⟨by rw [← h.2, Lexer.next_char_input], ?_, ?_, fun _ => ⟨?_, hlt⟩⟩ <;>
    rw [← h.2, Lexer.next_char_pos_of_lt hlt] <;> omega

lemma Lexer.dispatch_next {l : Lexer} {t : Token} {l' : Lexer}
    (hlen : l.pos ≤ l.input.length) (h : l.dispatch = some (t, l')) :
    l'.input = l.input ∧ l.pos ≤ l'.pos ∧ l'.pos ≤ l.input.length ∧
      (t.typ ≠ TokenType.EOF → l.pos < l'.pos ∧ l.pos < l.input.length) := by
  rw [Lexer.dispatch] at h
  rcases hc : l.ch with _ | c
  · simp only [hc, Option.some.injEq, Prod.mk.injEq] at h
    refine ⟨by rw [← h.2, Lexer.next_char_input],
      by rw [← h.2]; exact l.next_char_pos_le hlen,
      by rw [← h.2]; exact l.next_char_pos_le_length, fun hne => ?_⟩
    exact absurd (by rw [← h.1] : t.typ = (Token.new TokenType.EOF).typ) hne
  · have hlt : l.pos < l.input.length := l.ch_some_lt hc
    simp only [hc] at h
    by_cases h1 : c = ':'
    · rw [if_pos h1] at h; exact Lexer.step_next_char hlt h
    rw [if_neg h1] at h
    by_cases h2 : c = '+'
    · rw [if_pos h2] at h; exact Lexer.step_next_char hlt h
    rw [if_neg h2] at h
    by_cases h3 : c = '-'
    · rw [if_pos h3] at h; exact Lexer.step_next_char hlt h
    rw [if_neg h3] at h
    by_cases h4 : c = '/'
    · rw [if_pos h4] at h; exact Lexer.step_next_char hlt h
    rw [if_neg h4] at h
    by_cases h5 : c = '*'
    · rw [if_pos h5] at h; exact Lexer.step_next_char hlt h
    rw [if_neg h5] at h
    by_cases h6 : c = '%'
    · rw [if_pos h6] at h; exact Lexer.step_next_char hlt h
    rw [if_neg h6] at h
    by_cases h7 : c = '"'
    · rw [if_pos h7] at h
      obtain ⟨⟨t0, l0⟩, ha, h2⟩ := Option.map_eq_some'.mp h
      simp only [Prod.mk.injEq] at h2
      have hl0 : l0 = l.read_string_loop false := (Lexer.read_string_some ha).2
      have hmono : l.pos ≤ l0.pos := by
        rw [hl0]; exact l.read_string_loop_pos_le false
      have hbound : l0.pos ≤ l.input.length := by
        rw [hl0]; exact Lexer.read_string_loop_pos_le_length hlen
      have hinp : l0.input = l.input := by rw [hl0, Lexer.read_string_loop_input]
      have hnc_bound : l0.next_char.pos ≤ l.input.length := by
        have := l0.next_char_pos_le_length
        rwa [hinp] at this
      have hnc_strict : l.pos < l0.next_char.pos := by
        by_cases h9 : l0.pos < l0.input.length
        · rw [Lexer.next_char_pos_of_lt h9]
          omega
        · rw [Lexer.next_char, if_neg h9]
          show l.pos < l0.input.length
          rw [hinp]
          exact hlt
      exact ⟨by rw [← h2.2, Lexer.next_char_input, hinp],
        by rw [← h2.2]; omega, by rw [← h2.2]; exact hnc_bound,
        fun _ => ⟨by rw [← h2.2]; exact hnc_strict, hlt⟩⟩
    rw [if_neg h7] at h
    by_cases h8 : c = '='
    · rw [if_pos h8] at h
      by_cases h9 : l.peek_char = some '='
      · rw [if_pos h9] at h; exact Lexer.step_next_char hlt h
      · rw [if_neg h9] at h; exact Lexer.step_next_char hlt h
    rw [if_neg h8] at h
    by_cases h10 : c = '!'
    · rw [if_pos h10] at h
      by_cases h11 : l.peek_char = some '='
      · rw [if_pos h11] at h; exact Lexer.step_next_char hlt h
      · rw [if_neg h11] at h; exact Lexer.step_next_char hlt h
    rw [if_neg h10] at h
    by_cases h12 : is_letter (some c) = true
    · rw [if_pos h12] at h
      simp only [Option.some.injEq, Prod.mk.injEq, Lexer.read_identifier_snd] at h
      have hmono : l.pos < l.read_identifier_loop.pos :=
        Lexer.read_identifier_loop_pos_lt (by rw [hc]; simp [h12])
      have hbound : l.read_identifier_loop.pos ≤ l.input.length :=
        Lexer.read_identifier_loop_pos_le_length hlen
      exact ⟨by rw [← h.2, Lexer.read_identifier_loop_input],
        by rw [← h.2]; omega, by rw [← h.2]; exact hbound,
        fun _ => ⟨by rw [← h.2]; exact hmono, hlt⟩⟩
    rw [if_neg h12] at h
    by_cases h13 : is_digit (some c) = true
    · rw [if_pos h13] at h
      obtain ⟨⟨t0, l0⟩, ha, h2⟩ := Option.map_eq_some'.mp h
      simp only [Prod.mk.injEq] at h2
      have hl0 : l0 = (l.read_number_loop false).1 := (Lexer.read_number_some ha).2
      have hmono : l.pos < l0.pos := by
        rw [hl0]; exact Lexer.read_number_loop_pos_lt (by rw [hc]; exact h13)
      have hbound : l0.pos ≤ l.input.length := by
        rw [hl0]; exact Lexer.read_number_loop_pos_le_length hlen
      have hinp : l0.input = l.input := by rw [hl0, Lexer.read_number_loop_input]
      exact ⟨by rw [← h2.2, hinp], by rw [← h2.2]; omega,
        by rw [← h2.2]; exact hbound, fun _ => ⟨by rw [← h2.2]; exact hmono, hlt⟩⟩
    · rw [if_neg h13] at h
      exact Lexer.step_next_char hlt h

lemma Lexer.next_token_progress {l : Lexer} {t : Token} {l' : Lexer}
    (h : l.next_token = some (t, l')) (hne : t.typ ≠ TokenType.EOF) :
    l'.input = l.input ∧ l.pos < l'.pos ∧ l.pos < l.input.length := by
  rw [Lexer.next_token] at h
  obtain ⟨c, hc⟩ := Lexer.dispatch_ne_eof_ch h hne
  have hlt : l.skip_whitespace.pos < l.skip_whitespace.input.length :=
    Lexer.ch_some_lt hc
  obtain ⟨hi, _, _, hs⟩ := Lexer.dispatch_next (by omega) h
  obtain ⟨hs1, _⟩ := hs hne
  have hm := l.skip_whitespace_pos_le
  have hil : l.skip_whitespace.input = l.input := l.skip_whitespace_input
  refine ⟨by rw [hi, hil], by omega, by rw [hil] at hlt; omega⟩

/-- Scanning to completion: the caller's pull loop, requesting tokens
until `EndOfInput` (which the token stream then includes as its final
element); `none` models a panic of some step. -/
def Lexer.tokenize (l : Lexer) : Option (List Token) :=
  match h : l.next_token with
  | none => none
  | some (t, l') =>
    if ht : t.typ = TokenType.EOF then some [t]
    else l'.tokenize.map (t :: ·)
termination_by l.input.length + 1 - l.pos
decreasing_by
  obtain ⟨hi, hp, hl⟩ := Lexer.next_token_progress h ht
  rw [hi]
  omega

/-- Scan a whole string from a fresh scanner. -/
def lex (s : String) : Option (List Token) := (Lexer.new s.data).tokenize

lemma Lexer.tokenize_none {l : Lexer} (h : l.next_token = none) :
    l.tokenize = none := by
  rw [Lexer.tokenize]
  split
  · rfl
  · next t2 l2 h2 =>
    rw [h] at h2
    exact Option.noConfusion h2

lemma Lexer.tokenize_eof {l : Lexer} {t : Token} {l' : Lexer}
    (h : l.next_token = some (t, l')) (ht : t.typ = TokenType.EOF) :
    l.tokenize = some [t] := by
  rw [Lexer.tokenize]
  split
  · next h2 =>
    rw [h] at h2
    exact Option.noConfusion h2
  · next t2 l2 h2 =>
    rw [h] at h2
    injection h2 with h3
    injection h3 with h4 h5
    subst h4
    rw [dif_pos ht]

lemma Lexer.tokenize_cons {l : Lexer} {t : Token} {l' : Lexer}
    (h : l.next_token = some (t, l')) (ht : t.typ ≠ TokenType.EOF) :
    l.tokenize = l'.tokenize.map (t :: ·) := by
  rw [Lexer.tokenize]
  split
  · next h2 =>
    rw [h] at h2
    exact Option.noConfusion h2
  · next t2 l2 h2 =>
    rw [h] at h2
    injection h2 with h3
    injection h3 with h4 h5
    subst h4
    subst h5
    rw [dif_neg ht]

lemma Lexer.skip_whitespace_eq_self {l : Lexer} (h : l.ch ≠ some ' ') :
    l.skip_whitespace = l := by
  rw [Lexer.skip_whitespace, dif_neg h]

lemma Lexer.next_token_next {l : Lexer} {t : Token} {l' : Lexer}
    (hlen : l.pos ≤ l.input.length) (h : l.next_token = some (t, l')) :
    l'.input = l.input ∧ l.pos ≤ l'.pos ∧ l'.pos ≤ l.input.length := by
  rw [Lexer.next_token] at h
  have hs := l.skip_whitespace_pos_le
  have hsl : l.skip_whitespace.pos ≤ l.skip_whitespace.input.length :=
    Lexer.skip_whitespace_pos_le_length hlen
  have hsi : l.skip_whitespace.input = l.input := l.skip_whitespace_input
  obtain ⟨hi, hm, hb, _⟩ := Lexer.dispatch_next hsl h
  rw [hsi] at hi hb
  exact ⟨hi, by omega, hb⟩

lemma letter_not_digit {c : Char} (h : is_letter (some c) = true) :
    is_digit (some c) = false := by
  simp only [is_letter, decide_eq_true_eq] at h
  simp only [is_digit, decide_eq_false_iff_not]
  rintro ⟨hd0, hd9⟩
  rcases h with (⟨ha, _⟩ | ⟨ha, _⟩) | rfl
  · exact absurd (le_trans ha hd9) (by decide)
  · exact absurd (le_trans ha hd9) (by decide)
  · exact absurd hd9 (by decide)

lemma Lexer.read_string_none_iff (l : Lexer) :
    l.read_string = none ↔ l.peek_char = none := by
  rw [Lexer.read_string_eq, Option.map_eq_none']
  rw [strSlice]
  constructor
  · intro h
    by_cases hle : l.pos + 1 ≤ (l.read_string_loop false).pos
    · rw [if_pos hle] at h
      exact absurd h (by simp)
    · rcases hp : l.peek_char with _ | c
      · rfl
      · have h2 : l.pos + 1 ≤ (l.read_string_loop false).pos :=
          Lexer.read_string_loop_pos_succ_le (by rw [hp]; rfl)
        exact absurd h2 hle
  · intro hp
    have hloop : l.read_string_loop false = l := by
      rw [Lexer.read_string_loop, dif_neg (by rw [hp]; simp)]
    rw [hloop, if_neg (by omega)]

/-- Unfolds `read_number` past the always-successful slice. -/
lemma Lexer.read_number_eq2 (l : Lexer) :
    l.read_number =
      if (l.read_number_loop false).2 = true then
        some (TokenType.Float (String.mk ((l.input.drop l.pos).take
          ((l.read_number_loop false).1.pos - l.pos))), (l.read_number_loop false).1)
      else (parse_i32 ((l.input.drop l.pos).take
          ((l.read_number_loop false).1.pos - l.pos))).map
        fun n => (TokenType.Int n, (l.read_number_loop false).1) := by
  have hle := l.read_number_loop_pos_le false
  have hinp := l.read_number_loop_input false
  rw [Lexer.read_number_eq, strSlice, if_pos hle, hinp]

lemma Lexer.read_number_none_iff (l : Lexer) :
    l.read_number = none ↔
      ((l.read_number_loop false).2 = false ∧
        parse_i32 ((l.input.drop l.pos).take ((l.read_number_loop false).1.pos - l.pos)) =
          none) := by
  rw [Lexer.read_number_eq2]
  rcases hf : (l.read_number_loop false).2 with _ | _
  · rw [if_neg (by decide), Option.map_eq_none']
    simp
  · rw [if_pos rfl]
    simp

lemma Lexer.dispatch_none_iff (l : Lexer) :
    l.dispatch = none ↔
      ((is_digit l.ch = true ∧ l.read_number = none) ∨
        (l.ch = some '"' ∧ l.peek_char = none)) := by
  rw [Lexer.dispatch]
  rcases hc : l.ch with _ | c
  · simp [hc, is_digit]
  · simp only [hc]
    by_cases h1 : c = ':'
    · subst h1; rw [if_pos rfl]; simp [is_digit]
    rw [if_neg h1]
    by_cases h2 : c = '+'
    · subst h2; rw [if_pos rfl]; simp [is_digit]
    rw [if_neg h2]
    by_cases h3 : c = '-'
    · subst h3; rw [if_pos rfl]; simp [is_digit]
    rw [if_neg h3]
    by_cases h4 : c = '/'
    · subst h4; rw [if_pos rfl]; simp [is_digit]
    rw [if_neg h4]
    by_cases h5 : c = '*'
    · subst h5; rw [if_pos rfl]; simp [is_digit]
    rw [if_neg h5]
    by_cases h6 : c = '%'
    · subst h6; rw [if_pos rfl]; simp [is_digit]
    rw [if_neg h6]
    by_cases h7 : c = '"'
    · subst h7
      rw [if_pos rfl, Option.map_eq_none', Lexer.read_string_none_iff]
      simp [is_digit]
    rw [if_neg h7]
    by_cases h8 : c = '='
    · subst h8
      refine iff_of_false ?_ ?_
      · by_cases hp : l.peek_char = some '='
        · rw [if_pos rfl, if_pos hp]; simp
        · rw [if_pos rfl, if_neg hp]; simp
      · rintro (⟨hd, _⟩ | ⟨hq, _⟩)
        · exact absurd hd (by decide)
        · injection hq with hq2
          exact h7 hq2
    rw [if_neg h8]
    by_cases h10 : c = '!'
    · subst h10
      refine iff_of_false ?_ ?_
      · by_cases hp : l.peek_char = some '='
        · rw [if_pos rfl, if_pos hp]; simp
        · rw [if_pos rfl, if_neg hp]; simp
      · rintro (⟨hd, _⟩ | ⟨hq, _⟩)
        · exact absurd hd (by decide)
        · injection hq with hq2
          exact h7 hq2
    rw [if_neg h10]
    by_cases h12 : is_letter (some c) = true
    · rw [if_pos h12]
      refine iff_of_false (by simp) ?_
      rintro (⟨hd, _⟩ | ⟨hq, _⟩)
      · rw [letter_not_digit h12] at hd
        exact Bool.noConfusion hd
      · injection hq with hq2
        subst hq2
        exact absurd h12 (by decide)
    rw [if_neg h12]
    by_cases h13 : is_digit (some c) = true
    · rw [if_pos h13, Option.map_eq_none']
      have hne : ¬(c = '"') := h7
      simp [h13, hne]
    · rw [if_neg h13]
      refine iff_of_false (by simp) ?_
      rintro (⟨hd, _⟩ | ⟨hq, _⟩)
      · exact h13 hd
      · injection hq with hq2
        exact h7 hq2

lemma Lexer.dispatch_eof_inv {l : Lexer} {t : Token} {l' : Lexer}
    (h : l.dispatch = some (t, l')) (ht : t.typ = TokenType.EOF) :
    l.ch = none ∧ l' = { l with pos := l.input.length } := by
  rcases hc : l.ch with _ | c
  · rw [Lexer.dispatch] at h
    simp only [hc, Option.some.injEq, Prod.mk.injEq] at h
    refine ⟨rfl, ?_⟩
    rw [← h.2, Lexer.next_char, if_neg (by have := List.get?_eq_none.mp hc; omega)]
  · exfalso
    rw [Lexer.dispatch] at h
    simp only [hc] at h
    by_cases h1 : c = ':'
    · rw [if_pos h1] at h
      simp only [Option.some.injEq, Prod.mk.injEq] at h
      rw [← h.1] at ht
      exact absurd ht (by decide)
    rw [if_neg h1] at h
    by_cases h2 : c = '+'
    · rw [if_pos h2] at h
      simp only [Option.some.injEq, Prod.mk.injEq] at h
      rw [← h.1] at ht
      exact absurd ht (by decide)
    rw [if_neg h2] at h
    by_cases h3 : c = '-'
    · rw [if_pos h3] at h
      simp only [Option.some.injEq, Prod.mk.injEq] at h
      rw [← h.1] at ht
      exact absurd ht (by decide)
    rw [if_neg h3] at h
    by_cases h4 : c = '/'
    · rw [if_pos h4] at h
      simp only [Option.some.injEq, Prod.mk.injEq] at h
      rw [← h.1] at ht
      exact absurd ht (by decide)
    rw [if_neg h4] at h
    by_cases h5 : c = '*'
    · rw [if_pos h5] at h
      simp only [Option.some.injEq, Prod.mk.injEq] at h
      rw [← h.1] at ht
      exact absurd ht (by decide)
    rw [if_neg h5] at h
    by_cases h6 : c = '%'
    · rw [if_pos h6] at h
      simp only [Option.some.injEq, Prod.mk.injEq] at h
      rw [← h.1] at ht
      exact absurd ht (by decide)
    rw [if_neg h6] at h
    by_cases h7 : c = '"'
    · rw [if_pos h7] at h
      obtain ⟨⟨t0, l0⟩, ha, h2⟩ := Option.map_eq_some'.mp h
      simp only [Prod.mk.injEq] at h2
      obtain ⟨s, hs⟩ := (Lexer.read_string_some ha).1
      rw [← h2.1, hs] at ht
      exact absurd ht (by simp [Token.new])
    rw [if_neg h7] at h
    by_cases h8 : c = '='
    · rw [if_pos h8] at h
      by_cases hp : l.peek_char = some '='
      · rw [if_pos hp] at h
        simp only [Option.some.injEq, Prod.mk.injEq] at h
        rw [← h.1] at ht
        exact absurd ht (by decide)
      · rw [if_neg hp] at h
        simp only [Option.some.injEq, Prod.mk.injEq] at h
        rw [← h.1] at ht
        exact absurd ht (by decide)
    rw [if_neg h8] at h
    by_cases h10 : c = '!'
    · rw [if_pos h10] at h
      by_cases hp : l.peek_char = some '='
      · rw [if_pos hp] at h
        simp only [Option.some.injEq, Prod.mk.injEq] at h
        rw [← h.1] at ht
        exact absurd ht (by decide)
      · rw [if_neg hp] at h
        simp only [Option.some.injEq, Prod.mk.injEq] at h
        rw [← h.1] at ht
        exact absurd ht (by decide)
    rw [if_neg h10] at h
    by_cases h12 : is_letter (some c) = true
    · rw [if_pos h12] at h
      simp only [Option.some.injEq, Prod.mk.injEq, Lexer.read_identifier_fst] at h
      rcases lookup_ident_shape (String.mk ((l.read_identifier_loop.input.drop l.pos).take
          (l.read_identifier_loop.pos - l.pos))) with ⟨b, hb⟩ | hb | hb <;>
        (rw [← h.1, hb] at ht; exact absurd ht (by simp [Token.new]))
    rw [if_neg h12] at h
    by_cases h13 : is_digit (some c) = true
    · rw [if_pos h13] at h
      obtain ⟨⟨t0, l0⟩, ha, h2⟩ := Option.map_eq_some'.mp h
      simp only [Prod.mk.injEq] at h2
      rcases (Lexer.read_number_some ha).1 with ⟨s, hs⟩ | ⟨n, hs⟩ <;>
        (rw [← h2.1, hs] at ht; exact absurd ht (by simp [Token.new]))
    · rw [if_neg h13] at h
      simp only [Option.some.injEq, Prod.mk.injEq] at h
      rw [← h.1] at ht
      exact absurd ht (by simp [Token.new])

lemma Lexer.tokenize_some_inv {l : Lexer} {ts : List Token} (h : l.tokenize = some ts) :
    ∃ t l', l.next_token = some (t, l') ∧
      ((t.typ = TokenType.EOF ∧ ts = [t]) ∨
        (t.typ ≠ TokenType.EOF ∧ ∃ ts2, l'.tokenize = some ts2 ∧ ts = t :: ts2)) := by
  rw [Lexer.tokenize] at h
  split at h
  · exact Option.noConfusion h
  · next t2 l2 h2 =>
    by_cases ht : t2.typ = TokenType.EOF
    · rw [dif_pos ht] at h
      injection h with h3
      exact ⟨t2, l2, h2, Or.inl ⟨ht, h3.symm⟩⟩
    · rw [dif_neg ht] at h
      obtain ⟨ts2, hts2, h3⟩ := Option.map_eq_some'.mp h
      exact ⟨t2, l2, h2, Or.inr ⟨ht, ts2, hts2, h3.symm⟩⟩

lemma Lexer.tokenize_last : ∀ {ts : List Token} {l : Lexer}, l.tokenize = some ts →
    ts.getLast? = some (Token.new TokenType.EOF) := by
  intro ts
  induction ts with
  | nil =>
    intro l h
    obtain ⟨t, l', _, hcase⟩ := Lexer.tokenize_some_inv h
    rcases hcase with ⟨_, hts⟩ | ⟨_, _, _, hts⟩ <;> exact List.noConfusion hts
  | cons a ts ih =>
    intro l h
    obtain ⟨t, l', _, hcase⟩ := Lexer.tokenize_some_inv h
    rcases hcase with ⟨ht, hts⟩ | ⟨ht, ts2, hts2, hts⟩
    · injection hts with h1 h2
      subst h1
      subst h2
      obtain ⟨typ⟩ := a
      simp only at ht
      subst ht
      rfl
    · injection hts with h1 h2
      subst h1
      subst h2
      cases ts with
      | nil =>
        obtain ⟨t2, l2, _, hcase2⟩ := Lexer.tokenize_some_inv hts2
        rcases hcase2 with ⟨_, hts3⟩ | ⟨_, _, _, hts3⟩ <;> exact List.noConfusion hts3
      | cons b ts3 =>
        rw [List.getLast?_cons_cons]
        exact ih hts2

/-- The claim's class of recognized characters: spaces, the
single-character symbols, the quote, `=`, `!`, ASCII letters,
underscores (via `is_letter`) and digits. -/
def recognizedChar (c : Char) : Bool :=
  decide (c = ' ' ∨ c = ':' ∨ c = '+' ∨ c = '-' ∨ c = '/' ∨ c = '*' ∨ c = '%' ∨
    c = '"' ∨ c = '=' ∨ c = '!' ∨ is_letter (some c) = true ∨ is_digit (some c) = true)

lemma Lexer.next_token_no_illegal {l : Lexer} {t : Token} {l' : Lexer}
    (hrec : ∀ c ∈ l.input, recognizedChar c = true)
    (h : l.next_token = some (t, l')) : ∀ c0, t.typ ≠ TokenType.Illegal c0 := by
  intro c0
  rw [Lexer.next_token] at h
  have hch : l.skip_whitespace.ch ≠ some ' ' := l.skip_whitespace_ch
  rcases hc : l.skip_whitespace.ch with _ | c
  · rw [Lexer.dispatch] at h
    simp only [hc, Option.some.injEq, Prod.mk.injEq] at h
    rw [← h.1]
    simp [Token.new]
  · have hmem : c ∈ l.input := by
      have hc2 : l.skip_whitespace.input.get? l.skip_whitespace.pos = some c := hc
      have := List.get?_mem hc2
      rwa [Lexer.skip_whitespace_input] at this
    rw [Lexer.dispatch] at h
    simp only [hc] at h
    by_cases h1 : c = ':'
    · rw [if_pos h1] at h
      simp only [Option.some.injEq, Prod.mk.injEq] at h
      rw [← h.1]; simp [Token.new]
    rw [if_neg h1] at h
    by_cases h2 : c = '+'
    · rw [if_pos h2] at h
      simp only [Option.some.injEq, Prod.mk.injEq] at h
      rw [← h.1]; simp [Token.new]
    rw [if_neg h2] at h
    by_cases h3 : c = '-'
    · rw [if_pos h3] at h
      simp only [Option.some.injEq, Prod.mk.injEq] at h
      rw [← h.1]; simp [Token.new]
    rw [if_neg h3] at h
    by_cases h4 : c = '/'
    · rw [if_pos h4] at h
      simp only [Option.some.injEq, Prod.mk.injEq] at h
      rw [← h.1]; simp [Token.new]
    rw [if_neg h4] at h
    by_cases h5 : c = '*'
    · rw [if_pos h5] at h
      simp only [Option.some.injEq, Prod.mk.injEq] at h
      rw [← h.1]; simp [Token.new]
    rw [if_neg h5] at h
    by_cases h6 : c = '%'
    · rw [if_pos h6] at h
      simp only [Option.some.injEq, Prod.mk.injEq] at h
      rw [← h.1]; simp [Token.new]
    rw [if_neg h6] at h
    by_cases h7 : c = '"'
    · rw [if_pos h7] at h
      obtain ⟨⟨t0, l0⟩, ha, hb⟩ := Option.map_eq_some'.mp h
      simp only [Prod.mk.injEq] at hb
      obtain ⟨s, hs⟩ := (Lexer.read_string_some ha).1
      rw [← hb.1, hs]; simp [Token.new]
    rw [if_neg h7] at h
    by_cases h8 : c = '='
    · rw [if_pos h8] at h
      by_cases hp : l.skip_whitespace.peek_char = some '='
      · rw [if_pos hp] at h
        simp only [Option.some.injEq, Prod.mk.injEq] at h
        rw [← h.1]; simp [Token.new]
      · rw [if_neg hp] at h
        simp only [Option.some.injEq, Prod.mk.injEq] at h
        rw [← h.1]; simp [Token.new]
    rw [if_neg h8] at h
    by_cases h10 : c = '!'
    · rw [if_pos h10] at h
      by_cases hp : l.skip_whitespace.peek_char = some '='
      · rw [if_pos hp] at h
        simp only [Option.some.injEq, Prod.mk.injEq] at h
        rw [← h.1]; simp [Token.new]
      · rw [if_neg hp] at h
        simp only [Option.some.injEq, Prod.mk.injEq] at h
        rw [← h.1]; simp [Token.new]
    rw [if_neg h10] at h
    by_cases h12 : is_letter (some c) = true
    · rw [if_pos h12] at h
      simp only [Option.some.injEq, Prod.mk.injEq, Lexer.read_identifier_fst] at h
      rcases lookup_ident_shape (String.mk
          ((l.skip_whitespace.read_identifier_loop.input.drop l.skip_whitespace.pos).take
            (l.skip_whitespace.read_identifier_loop.pos - l.skip_whitespace.pos))) with
        ⟨b, hb⟩ | hb | hb <;> (rw [← h.1, hb]; simp [Token.new])
    rw [if_neg h12] at h
    by_cases h13 : is_digit (some c) = true
    · rw [if_pos h13] at h
      obtain ⟨⟨t0, l0⟩, ha, hb⟩ := Option.map_eq_some'.mp h
      simp only [Prod.mk.injEq] at hb
      rcases (Lexer.read_number_some ha).1 with ⟨s, hs⟩ | ⟨n, hs⟩ <;>
        (rw [← hb.1, hs]; simp [Token.new])
    · exfalso
      have hrc := hrec c hmem
      simp only [recognizedChar, decide_eq_true_eq] at hrc
      have hsp : ¬(c = ' ') := fun hq => hch (hq ▸ hc)
      rcases hrc with hx | hx | hx | hx | hx | hx | hx | hx | hx | hx | hx | hx
      · exact hsp hx
      · exact h1 hx
      · exact h2 hx
      · exact h3 hx
      · exact h4 hx
      · exact h5 hx
      · exact h6 hx
      · exact h7 hx
      · exact h8 hx
      · exact h10 hx
      · exact h12 hx
      · exact h13 hx

lemma Lexer.tokenize_no_illegal : ∀ {ts : List Token} {l : Lexer},
    (∀ c ∈ l.input, recognizedChar c = true) → l.tokenize = some ts →
    ∀ tk ∈ ts, ∀ c, tk.typ ≠ TokenType.Illegal c := by
  intro ts
  induction ts with
  | nil =>
    intro l _ _ tk htk
    exact absurd htk (List.not_mem_nil tk)
  | cons a ts ih =>
    intro l hrec h tk htk
    obtain ⟨t, l', hnt, hcase⟩ := Lexer.tokenize_some_inv h
    rcases hcase with ⟨ht, hts⟩ | ⟨ht, ts2, hts2, hts⟩
    · injection hts with ha hb
      subst ha
      subst hb
      rcases List.mem_singleton.mp htk with rfl
      intro c0
      rw [ht]
      simp
    · injection hts with ha hb
      subst ha
      subst hb
      rcases List.mem_cons.mp htk with rfl | htk2
      · exact Lexer.next_token_no_illegal hrec hnt
      · have hinp := (Lexer.next_token_progress hnt ht).1
        exact ih (by rw [hinp]; exact hrec) hts2 tk htk2

/-- The claim's condition that the opening quote is never followed by an
unescaped closing quote, expressed as the escape automaton over the
remaining characters: a backslash under no pending escape sets the flag,
an unescaped quote would close the literal (`false`), anything else
clears the flag. -/
def no_unescaped_quote : List Char → Bool → Bool
  | [], _ => true
  | c :: rest, esc =>
    if c = '\\' ∧ esc = false then no_unescaped_quote rest true
    else if c = '"' ∧ esc = false then false
    else no_unescaped_quote rest false

lemma Lexer.read_string_loop_runs_out : ∀ (rest : List Char) (l : Lexer) (esc : Bool),
    (∀ c ∈ l.input, c.utf8Size = 1) →
    l.pos < l.input.length → l.input.drop (l.pos + 1) = rest →
    no_unescaped_quote rest esc = true →
    l.read_string_loop esc = ⟨l.input, l.input.length - 1⟩ := by
  intro rest
  induction rest with
  | nil =>
    intro l esc hb hlt hdrop _
    have hlen : l.input.length ≤ l.pos + 1 := by
      have h2 := List.length_drop (l.pos + 1) l.input
      rw [hdrop] at h2
      simp only [List.length_nil] at h2
      omega
    have hpeek : l.peek_char = none := by
      rw [Lexer.peek_char_single hb, if_neg (by omega)]
      exact List.get?_eq_none.mpr (by omega)
    rw [Lexer.read_string_loop, dif_neg (by rw [hpeek]; simp)]
    have hp : l.pos = l.input.length - 1 := by omega
    conv_rhs => rw [← hp]
  | cons c rest ih =>
    intro l esc hb hlt hdrop hnuq
    have hget : l.input.get? (l.pos + 1) = some c := by
      have h2 := List.get?_drop l.input (l.pos + 1) 0
      rw [hdrop] at h2
      simpa using h2.symm
    have hlt2 : l.pos + 1 < l.input.length := by
      by_contra hn
      push_neg at hn
      rw [List.get?_eq_none.mpr hn] at hget
      exact Option.noConfusion hget
    have hpeek : l.peek_char.isSome = true := by
      rw [Lexer.peek_char_single hb, if_neg (by omega), hget]
      rfl
    have hnc : l.next_char = ⟨l.input, l.pos + 1⟩ := by
      rw [Lexer.next_char, if_pos hlt]
    have hnch : l.next_char.ch = some c := by rw [hnc]; exact hget
    have hb2 : ∀ c0 ∈ l.next_char.input, c0.utf8Size = 1 := by
      rw [Lexer.next_char_input]
      exact hb
    have hdrop2 : l.next_char.input.drop (l.next_char.pos + 1) = rest := by
      rw [hnc]
      have h2 := List.drop_drop 1 (l.pos + 1) l.input
      rw [hdrop] at h2
      simpa [Nat.add_comm] using h2.symm
    have hlt3 : l.next_char.pos < l.next_char.input.length := by rw [hnc]; exact hlt2
    have hres : ∀ e2, no_unescaped_quote rest e2 = true →
        l.next_char.read_string_loop e2 = ⟨l.input, l.input.length - 1⟩ := by
      intro e2 hn2
      have h2 := ih l.next_char e2 hb2 hlt3 hdrop2 hn2
      rw [h2, hnc]
    rw [Lexer.read_string_loop, dif_pos hpeek]
    by_cases hc1 : c = '\\'
    · subst hc1
      rw [hnch, if_pos rfl]
      by_cases he : esc = false
      · rw [if_pos he]
        rw [no_unescaped_quote, if_pos ⟨rfl, he⟩] at hnuq
        exact hres true hnuq
      · rw [if_neg he]
        rw [no_unescaped_quote, if_neg (fun hq => he hq.2),
          if_neg (by rintro ⟨hq, _⟩; exact absurd hq (by decide))] at hnuq
        exact hres false hnuq
    · rw [hnch, if_neg (fun hq => hc1 (Option.some.inj hq))]
      by_cases hc2 : c = '"'
      · subst hc2
        rw [if_pos rfl]
        by_cases he : esc = false
        · rw [no_unescaped_quote, if_neg (by rintro ⟨hq, _⟩; exact absurd hq (by decide)),
            if_pos ⟨rfl, he⟩] at hnuq
          exact Bool.noConfusion hnuq
        · rw [if_neg he]
          rw [no_unescaped_quote, if_neg (fun hq => he hq.2),
            if_neg (fun hq => he hq.2)] at hnuq
          exact hres false hnuq
      · rw [if_neg (fun hq => hc2 (Option.some.inj hq))]
        rw [no_unescaped_quote, if_neg (fun hq => hc1 hq.1),
          if_neg (fun hq => hc2 hq.1)] at hnuq
        exact hres false hnuq

/-- C1: for symbol/operator productions resolved without a dedicated
sub-scan (the single-character symbols and the `=`/`!` lookahead
steps), `next_token` advances the cursor by exactly one character
regardless of lookahead; consequently `"=="` scans to `Equal`,
`Assign`, `EndOfInput` and `"!="` to `NotEqual`, `Assign`,
`EndOfInput`. -/
theorem C1_symbol_advance_one :
    (∀ (l : Lexer) (c : Char), l.skip_whitespace.ch = some c →
      (c = ':' ∨ c = '+' ∨ c = '-' ∨ c = '/' ∨ c = '*' ∨ c = '%' ∨ c = '=' ∨ c = '!') →
      ∃ t, l.next_token = some (t, ⟨l.input, l.skip_whitespace.pos + 1⟩)) ∧
    lex "==" = some [Token.new TokenType.Equal, Token.new TokenType.Assign,
      Token.new TokenType.EOF] ∧
    lex "!=" = some [Token.new TokenType.NotEqual, Token.new TokenType.Assign,
      Token.new TokenType.EOF] := by
  refine ⟨?_, ?_, ?_⟩
  · intro l c hc hsym
    have hlt := Lexer.ch_some_lt hc
    have hnc : (l.skip_whitespace).next_char = ⟨l.input, l.skip_whitespace.pos + 1⟩ := by
      rw [Lexer.next_char, if_pos hlt, l.skip_whitespace_input]
    suffices h : ∃ t, l.next_token = some (t, l.skip_whitespace.next_char) by
      obtain ⟨t, ht⟩ := h
      exact ⟨t, by rw [ht, hnc]⟩
    rw [Lexer.next_token]
    rcases hsym with rfl | rfl | rfl | rfl | rfl | rfl | rfl | rfl
    · exact ⟨Token.new TokenType.Colon, by rw [Lexer.dispatch]; simp [hc]⟩
    · exact ⟨Token.new TokenType.Plus, by rw [Lexer.dispatch]; simp [hc]⟩
    · exact ⟨Token.new TokenType.Minus, by rw [Lexer.dispatch]; simp [hc]⟩
    · exact ⟨Token.new TokenType.Slash, by rw [Lexer.dispatch]; simp [hc]⟩
    · exact ⟨Token.new TokenType.Asterisk, by rw [Lexer.dispatch]; simp [hc]⟩
    · exact ⟨Token.new TokenType.Module, by rw [Lexer.dispatch]; simp [hc]⟩
    · by_cases hp : l.skip_whitespace.peek_char = some '='
      · exact ⟨Token.new TokenType.Equal, by rw [Lexer.dispatch]; simp [hc, hp]⟩
      · exact ⟨Token.new TokenType.Assign, by rw [Lexer.dispatch]; simp [hc, hp]⟩
    · by_cases hp : l.skip_whitespace.peek_char = some '='
      · exact ⟨Token.new TokenType.NotEqual, by rw [Lexer.dispatch]; simp [hc, hp]⟩
      · exact ⟨Token.new TokenType.Bang, by rw [Lexer.dispatch]; simp [hc, hp]⟩
  · have s1 : Lexer.next_token (Lexer.new "==".data) =
        some (Token.new TokenType.Equal, ⟨"==".data, 1⟩) := by
      simp [Lexer.next_token, Lexer.dispatch, Lexer.skip_whitespace, Lexer.ch,
        Lexer.next_char, Lexer.peek_char, Lexer.byte_pos, utf8Len, Char.utf8Size, Lexer.new, is_letter, is_digit, Token.new]
    have s2 : Lexer.next_token ⟨"==".data, 1⟩ =
        some (Token.new TokenType.Assign, ⟨"==".data, 2⟩) := by
      simp [Lexer.next_token, Lexer.dispatch, Lexer.skip_whitespace, Lexer.ch,
        Lexer.next_char, Lexer.peek_char, Lexer.byte_pos, utf8Len, Char.utf8Size, is_letter, is_digit, Token.new]
    have s3 : Lexer.next_token ⟨"==".data, 2⟩ =
        some (Token.new TokenType.EOF, ⟨"==".data, 2⟩) := by
      simp [Lexer.next_token, Lexer.dispatch, Lexer.skip_whitespace, Lexer.ch,
        Lexer.next_char, Lexer.peek_char, Lexer.byte_pos, utf8Len, Char.utf8Size, is_letter, is_digit, Token.new]
    rw [lex, Lexer.tokenize_cons s1 (by decide), Lexer.tokenize_cons s2 (by decide),
      Lexer.tokenize_eof s3 rfl]
    rfl
  · have s1 : Lexer.next_token (Lexer.new "!=".data) =
        some (Token.new TokenType.NotEqual, ⟨"!=".data, 1⟩) := by
      simp [Lexer.next_token, Lexer.dispatch, Lexer.skip_whitespace, Lexer.ch,
        Lexer.next_char, Lexer.peek_char, Lexer.byte_pos, utf8Len, Char.utf8Size, Lexer.new, is_letter, is_digit, Token.new]
    have s2 : Lexer.next_token ⟨"!=".data, 1⟩ =
        some (Token.new TokenType.Assign, ⟨"!=".data, 2⟩) := by
      simp [Lexer.next_token, Lexer.dispatch, Lexer.skip_whitespace, Lexer.ch,
        Lexer.next_char, Lexer.peek_char, Lexer.byte_pos, utf8Len, Char.utf8Size, is_letter, is_digit, Token.new]
    have s3 : Lexer.next_token ⟨"!=".data, 2⟩ =
        some (Token.new TokenType.EOF, ⟨"!=".data, 2⟩) := by
      simp [Lexer.next_token, Lexer.dispatch, Lexer.skip_whitespace, Lexer.ch,
        Lexer.next_char, Lexer.peek_char, Lexer.byte_pos, utf8Len, Char.utf8Size, is_letter, is_digit, Token.new]
    rw [lex, Lexer.tokenize_cons s1 (by decide), Lexer.tokenize_cons s2 (by decide),
      Lexer.tokenize_eof s3 rfl]
    rfl

/-- Witness for C1: on the input `":"` the colon production returns a
token and leaves the cursor exactly one character further. -/
theorem C1_symbol_advance_one_witness :
    ∃ t, Lexer.next_token (Lexer.new [':']) =
      some (t, ⟨(Lexer.new [':']).input, (Lexer.new [':']).skip_whitespace.pos + 1⟩) :=
  C1_symbol_advance_one.1 (Lexer.new [':']) ':'
    (by simp [Lexer.skip_whitespace, Lexer.ch, Lexer.new]) (Or.inl rfl)

/-- C9: inside string literals no unescaping is performed and the escape
marker is kept: the 23-character input `"escape this \" please"`
(quotes included, with a backslash before the inner quote) scans to a
single `StringLiteral` whose text is exactly the 21 characters
`escape this \" please` with the backslash retained, then
`EndOfInput`. -/
theorem C9_escape_kept_literally :
    lex "\"escape this \\\" please\"" =
      some [Token.new (TokenType.String "escape this \\\" please"),
        Token.new TokenType.EOF] ∧
    "\"escape this \\\" please\"".data.length = 23 ∧
    ("escape this \\\" please").data.length = 21 := by
  refine ⟨?_, by decide, by decide⟩
  have s1 : Lexer.next_token (Lexer.new "\"escape this \\\" please\"".data) =
      some (Token.new (TokenType.String "escape this \\\" please"),
        ⟨"\"escape this \\\" please\"".data, 23⟩) := by
    simp [Lexer.next_token, Lexer.dispatch, Lexer.skip_whitespace, Lexer.ch,
      Lexer.next_char, Lexer.peek_char, Lexer.byte_pos, utf8Len, Char.utf8Size, Lexer.new, is_letter, is_digit,
      Lexer.read_string, Lexer.read_string_loop, strSlice, Token.new]
  have s2 : Lexer.next_token ⟨"\"escape this \\\" please\"".data, 23⟩ =
      some (Token.new TokenType.EOF, ⟨"\"escape this \\\" please\"".data, 23⟩) := by
    simp [Lexer.next_token, Lexer.dispatch, Lexer.skip_whitespace, Lexer.ch,
      Lexer.next_char, Lexer.peek_char, Lexer.byte_pos, utf8Len, Char.utf8Size, is_letter, is_digit, Token.new]
  rw [lex, Lexer.tokenize_cons s1 (by decide), Lexer.tokenize_eof s2 rfl]
  rfl

/-- Counterexample to C2: scanning is not total for every input — on
`"99999999999"` (an integer literal exceeding the 32-bit range) the
first scan step aborts (the source unwraps the parse `Err` and
panics), so no token and no `Illegal` is produced. -/
theorem C2_totality_counterexample : lex "99999999999" = none := by
  have s1 : Lexer.next_token (Lexer.new "99999999999".data) = none := by
    simp [Lexer.next_token, Lexer.dispatch, Lexer.skip_whitespace, Lexer.ch,
      Lexer.next_char, Lexer.peek_char, Lexer.byte_pos, utf8Len, Char.utf8Size, Lexer.new, is_letter, is_digit,
      Lexer.read_number_eq2, Lexer.read_number_loop, parse_i32, Token.new]
  rw [lex, Lexer.tokenize_none s1]

/-- C2 amended: producing the next token returns a token in every
situation except exactly two, which abort the scan — after space
skipping, a numeric literal whose collected integer text fails the
32-bit parse, or a string literal at whose opening quote no next
character can be peeked (the byte-offset lookahead returns nothing:
this happens when the quote is the input's final character and, after
multi-byte characters, possibly earlier, the slice then inverting).
The second conjunct pins down the number failure: it happens exactly
when the literal stayed in integer mode and the collected digit text
does not parse. -/
theorem C2_totality_amended :
    (∀ l : Lexer, l.next_token = none ↔
      ((is_digit l.skip_whitespace.ch = true ∧ l.skip_whitespace.read_number = none) ∨
        (l.skip_whitespace.ch = some '"' ∧ l.skip_whitespace.peek_char = none))) ∧
    (∀ l : Lexer, l.read_number = none ↔
      ((l.read_number_loop false).2 = false ∧
        parse_i32 ((l.input.drop l.pos).take
          ((l.read_number_loop false).1.pos - l.pos)) = none)) := by
  constructor
  · intro l
    rw [Lexer.next_token, Lexer.dispatch_none_iff]
  · intro l
    exact l.read_number_none_iff

/-- C3: whenever the numeric literal that starts at the (space-skipped)
cursor stays in integer mode and its collected digit text fails the
32-bit parse, the scan step aborts (`none`, the modelled panic) instead
of returning an `Illegal` token or any other token. -/
theorem C3_overflow_aborts :
    ∀ l : Lexer, is_digit l.skip_whitespace.ch = true →
      (l.skip_whitespace.read_number_loop false).2 = false →
      parse_i32 ((l.skip_whitespace.input.drop l.skip_whitespace.pos).take
        ((l.skip_whitespace.read_number_loop false).1.pos - l.skip_whitespace.pos)) =
        none →
      l.next_token = none := by
  intro l hd hf hp
  rw [Lexer.next_token, Lexer.dispatch_none_iff]
  exact Or.inl ⟨hd, (Lexer.read_number_none_iff _).mpr ⟨hf, hp⟩⟩

/-- Witness for C3: the literal `"2147483648"` (one past `i32::MAX`)
aborts the scan step. -/
theorem C3_overflow_aborts_witness :
    Lexer.next_token (Lexer.new "2147483648".data) = none :=
  C3_overflow_aborts (Lexer.new "2147483648".data)
    (by simp [Lexer.skip_whitespace, Lexer.ch, Lexer.new, is_digit])
    (by simp [Lexer.skip_whitespace, Lexer.ch, Lexer.new, is_digit,
      Lexer.read_number_loop, Lexer.next_char, Lexer.peek_char])
    (by simp [Lexer.skip_whitespace, Lexer.ch, Lexer.new, is_digit,
      Lexer.read_number_loop, Lexer.next_char, Lexer.peek_char, Lexer.byte_pos, utf8Len, Char.utf8Size, parse_i32])

/-- Counterexample to C4: `"9999999999"` consists only of recognized
characters (digits), yet scanning does not run to completion with
`EndOfInput` — the first step aborts on the 32-bit integer parse, so
the token stream is never produced. -/
theorem C4_recognized_counterexample :
    ("9999999999".data.all recognizedChar = true) ∧ lex "9999999999" = none := by
  refine ⟨by decide, ?_⟩
  have s1 : Lexer.next_token (Lexer.new "9999999999".data) = none := by
    simp [Lexer.next_token, Lexer.dispatch, Lexer.skip_whitespace, Lexer.ch,
      Lexer.next_char, Lexer.peek_char, Lexer.byte_pos, utf8Len, Char.utf8Size, Lexer.new, is_letter, is_digit,
      Lexer.read_number_eq2, Lexer.read_number_loop, parse_i32, Token.new]
  rw [lex, Lexer.tokenize_none s1]

/-- C4 amended: for every input composed only of recognized characters,
if scanning runs to completion (the two abort situations of the
amended C2 never arise), no produced token is `Illegal` and the final
token is `EndOfInput`. -/
theorem C4_recognized_no_illegal :
    ∀ (input : List Char) (ts : List Token),
      (∀ c ∈ input, recognizedChar c = true) →
      (Lexer.new input).tokenize = some ts →
      (∀ tk ∈ ts, ∀ c, tk.typ ≠ TokenType.Illegal c) ∧
        ts.getLast? = some (Token.new TokenType.EOF) := by
  intro input ts hrec h
  exact ⟨Lexer.tokenize_no_illegal hrec h, Lexer.tokenize_last h⟩

/-- Witness for C4: the recognized-only input `"my_var := 10"` scans to
completion and the theorem yields `EndOfInput` as its final token. -/
theorem C4_recognized_no_illegal_witness :
    ((Lexer.new "my_var := 10".data).tokenize =
      some [Token.new (TokenType.Ident "my_var"), Token.new TokenType.Colon,
        Token.new TokenType.Assign, Token.new (TokenType.Int 10),
        Token.new TokenType.EOF]) ∧
    ([Token.new (TokenType.Ident "my_var"), Token.new TokenType.Colon,
      Token.new TokenType.Assign, Token.new (TokenType.Int 10),
      Token.new TokenType.EOF].getLast? = some (Token.new TokenType.EOF)) := by
  have s1 : Lexer.next_token (Lexer.new "my_var := 10".data) =
      some (Token.new (TokenType.Ident "my_var"), ⟨"my_var := 10".data, 6⟩) := by
    simp [Lexer.next_token, Lexer.dispatch, Lexer.skip_whitespace, Lexer.ch,
      Lexer.next_char, Lexer.peek_char, Lexer.byte_pos, utf8Len, Char.utf8Size, Lexer.new, is_letter, is_digit,
      Lexer.read_identifier, Lexer.read_identifier_loop, lookup_ident, Token.new]
  have s2 : Lexer.next_token ⟨"my_var := 10".data, 6⟩ =
      some (Token.new TokenType.Colon, ⟨"my_var := 10".data, 8⟩) := by
    simp [Lexer.next_token, Lexer.dispatch, Lexer.skip_whitespace, Lexer.ch,
      Lexer.next_char, Lexer.peek_char, Lexer.byte_pos, utf8Len, Char.utf8Size, is_letter, is_digit, Token.new]
  have s3 : Lexer.next_token ⟨"my_var := 10".data, 8⟩ =
      some (Token.new TokenType.Assign, ⟨"my_var := 10".data, 9⟩) := by
    simp [Lexer.next_token, Lexer.dispatch, Lexer.skip_whitespace, Lexer.ch,
      Lexer.next_char, Lexer.peek_char, Lexer.byte_pos, utf8Len, Char.utf8Size, is_letter, is_digit, Token.new]
  have s4 : Lexer.next_token ⟨"my_var := 10".data, 9⟩ =
      some (Token.new (TokenType.Int 10), ⟨"my_var := 10".data, 12⟩) := by
    simp [Lexer.next_token, Lexer.dispatch, Lexer.skip_whitespace, Lexer.ch,
      Lexer.next_char, Lexer.peek_char, Lexer.byte_pos, utf8Len, Char.utf8Size, is_letter, is_digit,
      Lexer.read_number_eq2, Lexer.read_number_loop, parse_i32, Token.new]
  have s5 : Lexer.next_token ⟨"my_var := 10".data, 12⟩ =
      some (Token.new TokenType.EOF, ⟨"my_var := 10".data, 12⟩) := by
    simp [Lexer.next_token, Lexer.dispatch, Lexer.skip_whitespace, Lexer.ch,
      Lexer.next_char, Lexer.peek_char, Lexer.byte_pos, utf8Len, Char.utf8Size, is_letter, is_digit, Token.new]
  have heval : (Lexer.new "my_var := 10".data).tokenize =
      some [Token.new (TokenType.Ident "my_var"), Token.new TokenType.Colon,
        Token.new TokenType.Assign, Token.new (TokenType.Int 10),
        Token.new TokenType.EOF] := by
    rw [Lexer.tokenize_cons s1 (by decide), Lexer.tokenize_cons s2 (by decide),
      Lexer.tokenize_cons s3 (by decide), Lexer.tokenize_cons s4 (by decide),
      Lexer.tokenize_eof s5 rfl]
    rfl
  exact ⟨heval,
    (C4_recognized_no_illegal "my_var := 10".data _ (by decide) heval).2⟩

/-- Counterexample to C5: on `"abc` (opening quote never closed) the
scanner does return a plain `StringLiteral` with no error, but its text
is `"ab"`, not the full text `"abc"` up to the end of the input — the
final character is inspected as the loop's last current character and
left out of the slice. -/
theorem C5_unterminated_counterexample :
    lex "\"abc" = some [Token.new (TokenType.String "ab"), Token.new TokenType.EOF] ∧
    ("ab" : String) ≠ "abc" := by
  refine ⟨?_, by decide⟩
  have s1 : Lexer.next_token (Lexer.new "\"abc".data) =
      some (Token.new (TokenType.String "ab"), ⟨"\"abc".data, 4⟩) := by
    simp [Lexer.next_token, Lexer.dispatch, Lexer.skip_whitespace, Lexer.ch,
      Lexer.next_char, Lexer.peek_char, Lexer.byte_pos, utf8Len, Char.utf8Size, Lexer.new, is_letter, is_digit,
      Lexer.read_string, Lexer.read_string_loop, strSlice, Token.new]
  have s2 : Lexer.next_token ⟨"\"abc".data, 4⟩ =
      some (Token.new TokenType.EOF, ⟨"\"abc".data, 4⟩) := by
    simp [Lexer.next_token, Lexer.dispatch, Lexer.skip_whitespace, Lexer.ch,
      Lexer.next_char, Lexer.peek_char, Lexer.byte_pos, utf8Len, Char.utf8Size, is_letter, is_digit, Token.new]
  rw [lex, Lexer.tokenize_cons s1 (by decide), Lexer.tokenize_eof s2 rfl]
  rfl

/-- C5 amended: when the cursor stands on an opening quote that is
never followed by an unescaped closing quote and every character of
the input is single-byte, then if at least one character follows the
quote, the scan terminates at end-of-input and returns a normal
`StringLiteral` carrying the text after the opening quote up to but
excluding the final character of the input (no `Illegal`, no
unterminated-string error); if the quote is the input's final
character, the scan step aborts on the inverted slice.  On multi-byte
input the byte-offset lookahead ends the sub-scan even earlier: the
remaining conjuncts show `"éab` scanning to `StringLiteral "é"` (two
trailing characters dropped) and `é"x` aborting although a character
follows the quote. -/
theorem C5_unterminated_amended :
    (∀ (l : Lexer) (rest : List Char), (∀ c ∈ l.input, c.utf8Size = 1) →
      l.ch = some '"' → l.input.drop (l.pos + 1) = rest →
      no_unescaped_quote rest false = true →
      (rest = [] → l.next_token = none) ∧
        (rest ≠ [] → l.next_token =
          some (Token.new (TokenType.String (String.mk rest.dropLast)),
            ⟨l.input, l.input.length⟩))) ∧
    lex "\"éab" = some [Token.new (TokenType.String "é"),
      Token.new (TokenType.Ident "b"), Token.new TokenType.EOF] ∧
    lex "é\"x" = none := by
  refine ⟨?_, ?_, ?_⟩
  · intro l rest hb hq hdrop hnuq
    have hlt : l.pos < l.input.length := l.ch_some_lt hq
    have hsp : l.ch ≠ some ' ' := by rw [hq]; simp
    have hlen : rest.length = l.input.length - (l.pos + 1) := by
      rw [← hdrop, List.length_drop]
    constructor
    · intro hnil
      subst hnil
      rw [Lexer.next_token, Lexer.skip_whitespace_eq_self hsp, Lexer.dispatch_none_iff]
      simp only [List.length_nil] at hlen
      refine Or.inr ⟨hq, ?_⟩
      rw [Lexer.peek_char_single hb, if_neg (by omega)]
      exact List.get?_eq_none.mpr (by omega)
    · intro hne
      have hr1 : 1 ≤ rest.length := by
        rcases rest with _ | ⟨c, r⟩
        · exact absurd rfl hne
        · simp
      have hloop := Lexer.read_string_loop_runs_out rest l false hb hlt hdrop hnuq
      have hslice : (l.input.drop (l.pos + 1)).take (l.input.length - 1 - (l.pos + 1)) =
          rest.dropLast := by
        rw [hdrop, List.dropLast_eq_take]
        congr 1
        omega
      have hrs : l.read_string =
          some (TokenType.String (String.mk rest.dropLast),
            ⟨l.input, l.input.length - 1⟩) := by
        rw [Lexer.read_string_eq, hloop, strSlice]
        simp only [Lexer.mk_input, Lexer.mk_pos]
        rw [if_pos (show l.pos + 1 ≤ l.input.length - 1 by omega), hslice]
        rfl
      have h9 : (⟨l.input, l.input.length - 1⟩ : Lexer).next_char =
          ⟨l.input, l.input.length⟩ := by
        rw [Lexer.next_char]
        simp only [Lexer.mk_input, Lexer.mk_pos]
        rw [if_pos (show l.input.length - 1 < l.input.length by omega)]
        congr 1
        omega
      rw [Lexer.next_token, Lexer.skip_whitespace_eq_self hsp, Lexer.dispatch]
      simp [hq, hrs, h9]
  · have s1 : Lexer.next_token (Lexer.new "\"éab".data) =
        some (Token.new (TokenType.String "é"), ⟨"\"éab".data, 3⟩) := by
      simp [Lexer.next_token, Lexer.dispatch, Lexer.skip_whitespace, Lexer.ch,
        Lexer.next_char, Lexer.peek_char, Lexer.byte_pos, utf8Len, Char.utf8Size,
        Lexer.new, is_letter, is_digit, Lexer.read_string, Lexer.read_string_loop,
        strSlice, Token.new]
    have s2 : Lexer.next_token ⟨"\"éab".data, 3⟩ =
        some (Token.new (TokenType.Ident "b"), ⟨"\"éab".data, 4⟩) := by
      simp [Lexer.next_token, Lexer.dispatch, Lexer.skip_whitespace, Lexer.ch,
        Lexer.next_char, Lexer.peek_char, Lexer.byte_pos, utf8Len, Char.utf8Size,
        is_letter, is_digit, Lexer.read_identifier, Lexer.read_identifier_loop,
        lookup_ident, Token.new]
    have s3 : Lexer.next_token ⟨"\"éab".data, 4⟩ =
        some (Token.new TokenType.EOF, ⟨"\"éab".data, 4⟩) := by
      simp [Lexer.next_token, Lexer.dispatch, Lexer.skip_whitespace, Lexer.ch,
        Lexer.next_char, Lexer.peek_char, Lexer.byte_pos, utf8Len, Char.utf8Size,
        is_letter, is_digit, Token.new]
    rw [lex, Lexer.tokenize_cons s1 (by decide), Lexer.tokenize_cons s2 (by decide),
      Lexer.tokenize_eof s3 rfl]
    rfl
  · have t1 : Lexer.next_token (Lexer.new "é\"x".data) =
        some (Token.new (TokenType.Illegal 'é'), ⟨"é\"x".data, 1⟩) := by
      simp [Lexer.next_token, Lexer.dispatch, Lexer.skip_whitespace, Lexer.ch,
        Lexer.next_char, Lexer.peek_char, Lexer.byte_pos, utf8Len, Char.utf8Size,
        Lexer.new, is_letter, is_digit, Token.new]
    have t2 : Lexer.next_token ⟨"é\"x".data, 1⟩ = none := by
      simp [Lexer.next_token, Lexer.dispatch, Lexer.skip_whitespace, Lexer.ch,
        Lexer.next_char, Lexer.peek_char, Lexer.byte_pos, utf8Len, Char.utf8Size,
        is_letter, is_digit, Lexer.read_string, Lexer.read_string_loop, strSlice,
        Token.new]
    rw [lex, Lexer.tokenize_cons t1 (by decide), Lexer.tokenize_none t2]
    rfl

/-- Witness for C5: on the single-byte tail `ab` after the opening
quote, the returned string literal is the text minus its final
character. -/
theorem C5_unterminated_amended_witness :
    (Lexer.new "\"ab".data).next_token =
      some (Token.new (TokenType.String (String.mk (['a', 'b'].dropLast))),
        ⟨(Lexer.new "\"ab".data).input, (Lexer.new "\"ab".data).input.length⟩) :=
  (C5_unterminated_amended.1 (Lexer.new "\"ab".data) ['a', 'b'] (by decide) (by decide)
    (by decide) (by decide)).2 (by decide)

/-- C6: once `next_token` has returned `EndOfInput`, every subsequent
call on the returned scanner state returns `EndOfInput` again with the
state unchanged (idempotent tail, no panic). -/
theorem C6_eof_idempotent :
    ∀ (l : Lexer) (t : Token) (l' : Lexer), l.next_token = some (t, l') →
      t.typ = TokenType.EOF → l'.next_token = some (Token.new TokenType.EOF, l') := by
  intro l t l' h ht
  rw [Lexer.next_token] at h
  obtain ⟨hch, hl'⟩ := Lexer.dispatch_eof_inv h ht
  have hch2 : l'.ch = none := by
    rw [hl', Lexer.ch]
    simp only [Lexer.mk_input, Lexer.mk_pos]
    exact List.get?_eq_none.mpr (Nat.le_refl _)
  have hskip : l'.skip_whitespace = l' :=
    Lexer.skip_whitespace_eq_self (by rw [hch2]; simp)
  have hnc : l'.next_char = l' := by
    rw [hl', Lexer.next_char]
    simp only [Lexer.mk_input, Lexer.mk_pos]
    rw [if_neg (by omega)]
  rw [Lexer.next_token, hskip, Lexer.dispatch]
  simp only [hch2]
  rw [hnc]

/-- Witness for C6: on the empty input the first call already returns
`EndOfInput`, and the theorem applies to give `EndOfInput` again from
the unchanged state. -/
theorem C6_eof_idempotent_witness :
    Lexer.next_token (⟨[], 0⟩ : Lexer) = some (Token.new TokenType.EOF, ⟨[], 0⟩) :=
  C6_eof_idempotent (Lexer.new []) (Token.new TokenType.EOF) ⟨[], 0⟩
    (by simp [Lexer.next_token, Lexer.dispatch, Lexer.skip_whitespace, Lexer.ch,
      Lexer.next_char, Lexer.new, Token.new]) rfl

/-- C7 evaluates the code where it violates the claim: on `é1.a5` the
number sub-scan consumes the `.` although the character immediately
following it is `'a'`, not a digit — `peek_char` reads the character
at CHAR index `byte_pos + 1` (here the trailing `'5'`), so the scan
produces `Float "1."`.  The final conjunct shows the claim's concrete
all-ASCII consequence does hold: `"1."` scans to `IntLiteral 1`,
`Illegal '.'`, `EndOfInput`. -/
theorem C7_number_dot_code_bug :
    lex "é1.a5" = some [Token.new (TokenType.Illegal 'é'),
      Token.new (TokenType.Float "1."), Token.new (TokenType.Ident "a5"),
      Token.new TokenType.EOF] ∧
    ("é1.a5".data.get? 3 = some 'a' ∧ is_digit (some 'a') = false) ∧
    lex "1." = some [Token.new (TokenType.Int 1), Token.new (TokenType.Illegal '.'),
      Token.new TokenType.EOF] := by
  refine ⟨?_, ⟨by decide, by decide⟩, ?_⟩
  · have s1 : Lexer.next_token (Lexer.new "é1.a5".data) =
        some (Token.new (TokenType.Illegal 'é'), ⟨"é1.a5".data, 1⟩) := by
      simp [Lexer.next_token, Lexer.dispatch, Lexer.skip_whitespace, Lexer.ch,
        Lexer.next_char, Lexer.peek_char, Lexer.byte_pos, utf8Len, Char.utf8Size,
        Lexer.new, is_letter, is_digit, Token.new]
    have s2 : Lexer.next_token ⟨"é1.a5".data, 1⟩ =
        some (Token.new (TokenType.Float "1."), ⟨"é1.a5".data, 3⟩) := by
      simp [Lexer.next_token, Lexer.dispatch, Lexer.skip_whitespace, Lexer.ch,
        Lexer.next_char, Lexer.peek_char, Lexer.byte_pos, utf8Len, Char.utf8Size,
        is_letter, is_digit, Lexer.read_number_eq2, Lexer.read_number_loop,
        parse_i32, Token.new]
    have s3 : Lexer.next_token ⟨"é1.a5".data, 3⟩ =
        some (Token.new (TokenType.Ident "a5"), ⟨"é1.a5".data, 5⟩) := by
      simp [Lexer.next_token, Lexer.dispatch, Lexer.skip_whitespace, Lexer.ch,
        Lexer.next_char, Lexer.peek_char, Lexer.byte_pos, utf8Len, Char.utf8Size,
        is_letter, is_digit, Lexer.read_identifier, Lexer.read_identifier_loop,
        lookup_ident, Token.new]
    have s4 : Lexer.next_token ⟨"é1.a5".data, 5⟩ =
        some (Token.new TokenType.EOF, ⟨"é1.a5".data, 5⟩) := by
      simp [Lexer.next_token, Lexer.dispatch, Lexer.skip_whitespace, Lexer.ch,
        Lexer.next_char, Lexer.peek_char, Lexer.byte_pos, utf8Len, Char.utf8Size,
        is_letter, is_digit, Token.new]
    rw [lex, Lexer.tokenize_cons s1 (by decide), Lexer.tokenize_cons s2 (by decide),
      Lexer.tokenize_cons s3 (by decide), Lexer.tokenize_eof s4 rfl]
    rfl
  · have s1 : Lexer.next_token (Lexer.new "1.".data) =
        some (Token.new (TokenType.Int 1), ⟨"1.".data, 1⟩) := by
      simp [Lexer.next_token, Lexer.dispatch, Lexer.skip_whitespace, Lexer.ch,
        Lexer.next_char, Lexer.peek_char, Lexer.byte_pos, utf8Len, Char.utf8Size,
        Lexer.new, is_letter, is_digit, Lexer.read_number_eq2,
        Lexer.read_number_loop, parse_i32, Token.new]
    have s2 : Lexer.next_token ⟨"1.".data, 1⟩ =
        some (Token.new (TokenType.Illegal '.'), ⟨"1.".data, 2⟩) := by
      simp [Lexer.next_token, Lexer.dispatch, Lexer.skip_whitespace, Lexer.ch,
        Lexer.next_char, Lexer.peek_char, Lexer.byte_pos, utf8Len, Char.utf8Size,
        is_letter, is_digit, Token.new]
    have s3 : Lexer.next_token ⟨"1.".data, 2⟩ =
        some (Token.new TokenType.EOF, ⟨"1.".data, 2⟩) := by
      simp [Lexer.next_token, Lexer.dispatch, Lexer.skip_whitespace, Lexer.ch,
        Lexer.next_char, Lexer.peek_char, Lexer.byte_pos, utf8Len, Char.utf8Size,
        is_letter, is_digit, Token.new]
    rw [lex, Lexer.tokenize_cons s1 (by decide), Lexer.tokenize_cons s2 (by decide),
      Lexer.tokenize_eof s3 rfl]
    rfl

/-- C8: only the space character is skipped as whitespace (the skip
loop is the identity whenever the current character is not `' '`), and
a tab or newline at the cursor is returned by `next_token` as an
`Illegal` token carrying that character. -/
theorem C8_only_space_skipped :
    (∀ l : Lexer, l.ch ≠ some ' ' → l.skip_whitespace = l) ∧
    (∀ (l : Lexer) (c : Char), (c = '\t' ∨ c = '\n') → l.ch = some c →
      l.next_token = some (Token.new (TokenType.Illegal c), l.next_char)) := by
  constructor
  · intro l h
    exact Lexer.skip_whitespace_eq_self h
  · intro l c hcn hch
    have hsp : l.ch ≠ some ' ' := by
      rcases hcn with rfl | rfl <;> (rw [hch]; simp)
    rw [Lexer.next_token, Lexer.skip_whitespace_eq_self hsp, Lexer.dispatch]
    rcases hcn with rfl | rfl <;> simp [hch, is_letter, is_digit]

/-- Witness for C8: a lone tab is neither skipped nor classified — it
comes back as `Illegal '\t'`. -/
theorem C8_only_space_skipped_witness :
    Lexer.next_token (⟨['\t'], 0⟩ : Lexer) =
      some (Token.new (TokenType.Illegal '\t'), Lexer.next_char ⟨['\t'], 0⟩) ∧
    Lexer.skip_whitespace (⟨['\t'], 0⟩ : Lexer) = ⟨['\t'], 0⟩ :=
  ⟨C8_only_space_skipped.2 ⟨['\t'], 0⟩ '\t' (Or.inl rfl) (by decide),
    C8_only_space_skipped.1 ⟨['\t'], 0⟩ (by decide)⟩

/-- C10: scanner state invariant — after construction the cursor is at
most the input length; the current character is absent exactly when
the offset equals the input length; and a successful `next_token` call
preserves the input, never decreases the offset, and keeps it at most
the input length. -/
theorem C10_cursor_invariant :
    (∀ input : List Char, (Lexer.new input).pos ≤ input.length) ∧
    (∀ l : Lexer, l.pos ≤ l.input.length → (l.ch = none ↔ l.pos = l.input.length)) ∧
    (∀ (l : Lexer) (t : Token) (l' : Lexer), l.pos ≤ l.input.length →
      l.next_token = some (t, l') →
      l'.input = l.input ∧ l.pos ≤ l'.pos ∧ l'.pos ≤ l'.input.length) := by
  refine ⟨?_, ?_, ?_⟩
  · intro input
    exact Nat.zero_le _
  · intro l h
    constructor
    · intro hn
      have h2 : l.input.length ≤ l.pos := List.get?_eq_none.mp hn
      omega
    · intro hp
      exact List.get?_eq_none.mpr (by omega)
  · intro l t l' hlen h
    obtain ⟨hi, hm, hb⟩ := Lexer.next_token_next hlen h
    exact ⟨hi, hm, by rw [hi]; exact hb⟩

/-- Witness for C10: a fresh scanner over `['a']` satisfies the bound,
and one `next_token` call (producing `Ident "a"`) preserves it. -/
theorem C10_cursor_invariant_witness :
    ((Lexer.new ['a']).pos ≤ (['a'] : List Char).length) ∧
    ((⟨['a'], 1⟩ : Lexer).input = (⟨['a'], 0⟩ : Lexer).input ∧
      (⟨['a'], 0⟩ : Lexer).pos ≤ (⟨['a'], 1⟩ : Lexer).pos ∧
      (⟨['a'], 1⟩ : Lexer).pos ≤ (⟨['a'], 1⟩ : Lexer).input.length) :=
  ⟨C10_cursor_invariant.1 ['a'],
    C10_cursor_invariant.2.2 ⟨['a'], 0⟩ (Token.new (TokenType.Ident "a")) ⟨['a'], 1⟩
      (by decide)
      (by simp [Lexer.next_token, Lexer.dispatch, Lexer.skip_whitespace, Lexer.ch,
        Lexer.next_char, Lexer.peek_char, Lexer.byte_pos, utf8Len, Char.utf8Size, is_letter, is_digit,
        Lexer.read_identifier, Lexer.read_identifier_loop, lookup_ident, Token.new])⟩
